import Mathlib

/-!
Index handle and index cursor (mongo/db/index.cpp, mongo/db/indexcursor.cpp)

A shallow embedding of `IndexDetails` (insert, uniqueCheck, insertPair,
deleteObject) and of `IndexCursor` (cursor_getf, initializeDBC,
checkCurrentAgainstBounds, skipOutOfRangeKeysAndCheckEnd, checkEnd, advance),
followed by the properties proved about them.

A buffer is a list of bytes.  A `BSONObj` is a pointer to such a buffer whose
first four bytes hold the object's size, as in the C++ class.  What the two
files call but do not define (the BSON comparison, the element iterator, the key
extraction, the bounds iterator, the ordered dictionary) is either a field of
`Ops` / `BoundsIterator`, or a definition whose comment says what it stands for.
-/

set_option autoImplicit false

namespace Mongo

/-! ## Buffers and BSON objects -/

/-- The bytes of a buffer (`char *` together with its length). -/
abbrev Bytes := List Nat

/-- The `(int)` cast of a `size_t`: reduction to a signed 32-bit integer. -/
def toInt32 (n : Nat) : Int :=
  if n % 4294967296 < 2147483648 then ((n % 4294967296 : Nat) : Int)
  else ((n % 4294967296 : Nat) : Int) - 4294967296

/-- The little-endian signed 32-bit integer at the start of a buffer. -/
def readInt32 (d : Bytes) : Int :=
  toInt32 (d.getD 0 0 % 256 + 256 * (d.getD 1 0 % 256)
    + 65536 * (d.getD 2 0 % 256) + 16777216 * (d.getD 3 0 % 256))

/-- A `BSONObj`: the buffer its `objdata()` pointer points into.  The object
itself is the first `objsize()` bytes; a view into a longer buffer keeps the
bytes that follow. -/
structure BSONObj where
  objdata : Bytes
deriving DecidableEq

namespace BSONObj

/-- The size field: `objsize()` reads the first four bytes. -/
def objsize (o : BSONObj) : Int := readInt32 o.objdata

/-- The test `isEmpty()`: an object of at most five bytes has no element. -/
def isEmpty (o : BSONObj) : Bool := decide (o.objsize ≤ 5)

/-- The method `getOwned()`: a copy of exactly the `objsize()` bytes of the object. -/
def getOwned (o : BSONObj) : BSONObj := ⟨o.objdata.take o.objsize.toNat⟩

/-- The default-constructed `BSONObj()`: the five bytes of the empty object. -/
def empty : BSONObj := ⟨[5, 0, 0, 0, 0]⟩

/-- The largest size the BSON library accepts for an object
(`BSONObjMaxInternalSize`, 16MB + 16KB). -/
def maxInternalSize : Nat := 16 * 1024 * 1024 + 16 * 1024

/-- An object that owns exactly its `objsize()` bytes, at least the five bytes
of the empty object and at most the size limit of the BSON library. -/
def Valid (o : BSONObj) : Prop :=
  o.objsize = (o.objdata.length : Int) ∧ 5 ≤ o.objdata.length
    ∧ o.objdata.length ≤ maxInternalSize

instance (o : BSONObj) : Decidable o.Valid := by
  unfold Valid; exact inferInstance

end BSONObj

/-- A `DBT`: `data` is the buffer and `size` its length. -/
abbrev DBT := Bytes

/-- The three failures the two files can raise. -/
inductive Failure where
  /-- A failed `uassert(code, ...)`: a user-visible error. -/
  | uassert (code : Nat)
  /-- A failed `verify(...)`: an assertion failure. -/
  | verify
  /-- The exception of `killCurrentOp.checkForInterrupt()`. -/
  | interrupted
deriving DecidableEq

/-- The statement `verify(b)`. -/
def verify (b : Bool) : Except Failure Unit :=
  if b then Except.ok () else Except.error Failure.verify

/-! ## The stored key (storage::index_key_size, storage::index_key_init) -/

/-- Modelled from the spec: `storage::index_key_size`, the size of
"Composite Key ++ Primary Key bytes". -/
def index_key_size (key : BSONObj) (pk : Option BSONObj) : Int :=
  key.objsize + (match pk with | some p => p.objsize | none => 0)

/-- Modelled from the spec: `storage::index_key_init`, which fills the buffer
with the bytes of the key followed, when a primary key is given, by the bytes of
the primary key ("stored key = Composite Key ++ Primary Key bytes"). -/
def index_key_init (key : BSONObj) (pk : Option BSONObj) : DBT :=
  key.getOwned.objdata ++ (match pk with | some p => p.getOwned.objdata | none => [])

/-! ## The cursor callback (indexcursor.cpp) -/

/-- The three objects a `cursor_getf_extra` points to. -/
structure cursor_getf_extra where
  key : BSONObj
  pk : BSONObj
  val : BSONObj
deriving DecidableEq

/-- The callback `cursor_getf`: splits the stored key into the key object and
the primary key that may follow it, and reads the stored value. -/
def cursor_getf (key val : DBT) (info : cursor_getf_extra) :
    Except Failure cursor_getf_extra := do
  let keyObj : BSONObj := ⟨key⟩
  verify (decide (keyObj.objsize ≤ toInt32 key.length))
  verify (!keyObj.isEmpty)
  let info := { info with key := keyObj.getOwned }
  let info ←
    if keyObj.objsize < toInt32 key.length then do
      let pkObj : BSONObj := ⟨key.drop keyObj.objsize.toNat⟩
      verify (decide (keyObj.objsize + pkObj.objsize = toInt32 key.length))
      verify (!pkObj.isEmpty)
      pure { info with pk := pkObj.getOwned }
    else
      pure { info with pk := info.key }
  if val.length > 0 then do
    let valObj : BSONObj := ⟨val⟩
    verify (decide (valObj.objsize = toInt32 val.length))
    pure { info with val := if valObj.isEmpty then BSONObj.empty else valObj.getOwned }
  else
    pure info

/-! ## What the BSON library and the index specification provide -/

/-- A BSON element as `BSONObjIterator::next` yields it. -/
structure BSONElement where
  type : Nat
  fieldName : Bytes
  value : Bytes
deriving DecidableEq

/-- The functions of other modules that the index of one collection calls:
the element iterator and `BSONElement::ok`, `BSONObj::woCompare` under the
ordering of the key pattern of the index, the comparison of primary keys in the
dictionary, the key extraction `IndexSpec::getKeys` (the keys of the
resulting `BSONObjSet`, in its order), and `fixKey` of the index type when
`getSpec().getType()` is not null. -/
structure Ops where
  elements : BSONObj → List BSONElement
  ok : BSONElement → Bool
  woCompare : BSONObj → BSONObj → Int
  pkCompare : BSONObj → BSONObj → Int
  getKeys : BSONObj → List BSONObj
  fixKey : Option (BSONObj → BSONObj)

/-- The comparisons are those of a total preorder. -/
structure Ops.Lawful (ops : Ops) : Prop where
  wo_swap : ∀ a b, ops.woCompare a b < 0 ↔ 0 < ops.woCompare b a
  wo_trans : ∀ a b c, ops.woCompare a b ≤ 0 → ops.woCompare b c ≤ 0 → ops.woCompare a c ≤ 0
  pk_swap : ∀ a b, ops.pkCompare a b < 0 ↔ 0 < ops.pkCompare b a

/-! ## The ordered dictionary (`DB`, `DBC`) -/

/-- The contents of a dictionary, in the order of the dictionary. -/
abbrev Store := List (DBT × DBT)

/-- The flag of `put` that refuses to replace an existing key (a constant of the
dictionary's header `db.h`; only that it differs from 0 matters). -/
def DB_NOOVERWRITE : Nat := 20

/-- The flag of `del` that accepts a key that is absent. -/
def DB_DELETE_ANY : Nat := 65536

/-- The return code of a `put` that found the key present (only that it differs
from 0 matters). -/
def DB_KEYEXIST : Int := -30996

/-- The return code of an operation that found no entry (only that it differs
from 0 and from `DB_KEYEXIST` matters). -/
def DB_NOTFOUND : Int := -30989

/-- The object at the start of a stored key, the composite key: what
`BSONObj(key->data)` stands for.  A comparison reads exactly the `objsize()`
bytes of an object, so a view into a stored key is passed on by its content. -/
def keyOf (key : DBT) : BSONObj := (BSONObj.mk key).getOwned

/-- The object that follows the composite key in a stored key: what
`BSONObj(key->data + objsize)` stands for. -/
def pkOf (key : DBT) : BSONObj :=
  (BSONObj.mk (key.drop (BSONObj.mk key).objsize.toNat)).getOwned

/-- Modelled from the spec: the comparison function of the dictionary.  Stored
keys are ordered by composite key under the key pattern and then by primary
key; a key that carries no primary key (the search key of a seek) is neither
before nor after a key with the same composite key, so that a seek with a bare
composite key reaches "the first stored entry ≥ that Composite Key". -/
def Ops.dbtCompare (ops : Ops) (key1 key2 : DBT) : Int :=
  let c := ops.woCompare (keyOf key1) (keyOf key2)
  if c < 0 then -1
  else if c > 0 then 1
  else if toInt32 key1.length - (BSONObj.mk key1).objsize > 0
      ∧ toInt32 key2.length - (BSONObj.mk key2).objsize > 0 then
    let c2 := ops.pkCompare (pkOf key1) (pkOf key2)
    if c2 < 0 then -1 else if c2 > 0 then 1 else 0
  else 0

/-- Modelled from the spec: `DB::put`, "point put(key, value, noOverwriteFlag)".
A key that compares equal to a stored key is the same key: with
`DB_NOOVERWRITE` the put is refused with `DB_KEYEXIST`, otherwise the entry is
replaced.  A new key is placed before the first greater key. -/
def Ops.put (ops : Ops) (db : Store) (key val : DBT) (flags : Nat) : Int × Store :=
  if flags = DB_NOOVERWRITE ∧ db.any (fun e => decide (ops.dbtCompare e.1 key = 0)) then
    (DB_KEYEXIST, db)
  else
    let rest := db.filter (fun e => decide (ops.dbtCompare e.1 key ≠ 0))
    (0, rest.takeWhile (fun e => decide (ops.dbtCompare e.1 key < 0)) ++ (key, val) ::
          rest.dropWhile (fun e => decide (ops.dbtCompare e.1 key < 0)))

/-- Modelled from the spec: `DB::del`, "point delete(key, flags)".  With
`DB_DELETE_ANY` a key that is absent is not an error. -/
def Ops.del (ops : Ops) (db : Store) (key : DBT) (flags : Nat) : Int × Store :=
  if flags ≠ DB_DELETE_ANY ∧ ¬ db.any (fun e => decide (ops.dbtCompare e.1 key = 0)) then
    (DB_NOTFOUND, db)
  else
    (0, db.filter (fun e => decide (ops.dbtCompare e.1 key ≠ 0)))

/-- A `DBC`: the position of a cursor in the dictionary, if it has one. -/
structure DBC where
  pos : Option Nat
deriving DecidableEq

/-- Modelled from the spec: `c_getf_set_range`, the seek to "the first entry ≥"
the given key.  Returns the code, the cursor and the entry handed to the
callback. -/
def Ops.c_getf_set_range (ops : Ops) (db : Store) (c : DBC) (key : DBT) :
    Int × DBC × Option (DBT × DBT) :=
  let i := db.findIdx (fun e => decide (0 ≤ ops.dbtCompare e.1 key))
  match db.get? i with
  | some e => (0, ⟨some i⟩, some e)
  | none => (DB_NOTFOUND, c, none)

/-- Modelled from the spec: `c_getf_set_range_reverse`, the seek to the last
entry "≤ start if reverse". -/
def Ops.c_getf_set_range_reverse (ops : Ops) (db : Store) (c : DBC) (key : DBT) :
    Int × DBC × Option (DBT × DBT) :=
  let i := db.reverse.findIdx (fun e => decide (ops.dbtCompare e.1 key ≤ 0))
  match db.reverse.get? i with
  | some e => (0, ⟨some (db.length - 1 - i)⟩, some e)
  | none => (DB_NOTFOUND, c, none)

/-- Modelled from the spec: `c_getf_next`, one position forward (the first entry
for a cursor that has no position). -/
def c_getf_next (db : Store) (c : DBC) : Int × DBC × Option (DBT × DBT) :=
  let i := match c.pos with
    | some i => i + 1
    | none => 0
  match db.get? i with
  | some e => (0, ⟨some i⟩, some e)
  | none => (DB_NOTFOUND, c, none)

/-- Modelled from the spec: `c_getf_prev`, one position backward (the last entry
for a cursor that has no position). -/
def c_getf_prev (db : Store) (c : DBC) : Int × DBC × Option (DBT × DBT) :=
  let i := match c.pos with
    | some i => i
    | none => db.length
  match i with
  | 0 => (DB_NOTFOUND, c, none)
  | j + 1 =>
    match db.get? j with
    | some e => (0, ⟨some j⟩, some e)
    | none => (DB_NOTFOUND, c, none)

/-- The stored keys that the callbacks accept: a non-empty sized object,
alone or followed by a second non-empty sized object that fills the rest of the
key (the conditions that `cursor_getf` and `uniqueCheckCallback` verify). -/
def wellFormedKey (key : DBT) : Bool :=
  decide (readInt32 key ≤ toInt32 key.length) && decide (5 < readInt32 key)
    && (decide (readInt32 key = toInt32 key.length)
      || (decide (5 < readInt32 (key.drop (readInt32 key).toNat))
        && decide (readInt32 key + readInt32 (key.drop (readInt32 key).toNat)
            = toInt32 key.length)))

/-- The stored values that `cursor_getf` accepts: no byte, or one sized object. -/
def wellFormedVal (val : DBT) : Bool :=
  decide (val.length = 0) || decide (readInt32 val = toInt32 val.length)

/-! ## IndexDetails (index.cpp) -/

/-- The state of one index: what `isIdIndex()`, `clustering()` and `unique()`
return, the contents of its dictionary `_db`, and the multikey bit that the
owning `NamespaceDetails` keeps for it. -/
structure IndexDetails where
  isIdIndex : Bool
  clustering : Bool
  unique : Bool
  db : Store
  multikey : Bool
deriving DecidableEq

/-- The method `NamespaceDetails::setIndexIsMultikey` for this index. -/
def IndexDetails.setIndexIsMultikey (idx : IndexDetails) : IndexDetails :=
  { idx with multikey := true }

/-- The loop at the head of `uniqueCheck`: true when it meets an element that is
not `ok()` and returns. -/
def Ops.hasNotOk (ops : Ops) : List BSONElement → Bool
  | [] => false
  | id :: rest => if !ops.ok id then true else ops.hasNotOk rest

/-- The callback `uniqueCheckCallback(key, val, extra)` together with the member
function it forwards to: the new value of `isUnique`. -/
def Ops.uniqueCheckCallback (ops : Ops) (key : Option DBT) (newkey : BSONObj)
    (isUnique : Bool) : Except Failure Bool :=
  match key with
  | some key => do
    let oldkey : BSONObj := ⟨key⟩
    verify (decide (oldkey.objsize ≤ toInt32 key.length))
    verify (!oldkey.isEmpty)
    if oldkey.objsize < toInt32 key.length then do
      let pk : BSONObj := ⟨key.drop oldkey.objsize.toNat⟩
      verify (!pk.isEmpty)
      verify (decide (pk.objsize = toInt32 key.length - oldkey.objsize))
    let c := ops.woCompare newkey oldkey.getOwned
    pure (if c = 0 then false else isUnique)
  | none => pure isUnique

/-- The method `IndexDetails::uniqueCheck`: `none` when it returns, the failure
when it throws.  It is a `const` method: the index is not changed. -/
def Ops.uniqueCheck (ops : Ops) (idx : IndexDetails) (key : BSONObj) : Option Failure :=
  if ops.hasNotOk (ops.elements key) then none
  else
    let kdbt := index_key_init key none
    let (r, _, found) := ops.c_getf_set_range idx.db ⟨none⟩ kdbt
    match ops.uniqueCheckCallback (found.map Prod.fst) key true with
    | Except.error f => some f
    | Except.ok isUnique =>
      if r = 0 ∨ r = DB_NOTFOUND then
        if isUnique then none else some (Failure.uassert 16433)
      else some Failure.verify

/-- The method `IndexDetails::insertPair`: the index afterwards and the failure
thrown, if any. -/
def Ops.insertPair (ops : Ops) (idx : IndexDetails) (key : BSONObj) (pk : Option BSONObj)
    (val : BSONObj) (overwrite : Bool) : IndexDetails × Option Failure :=
  match ops.uniqueCheck idx key with
  | some f => (idx, some f)
  | none =>
    let kdbt := index_key_init key pk
    let vdbt := val.getOwned.objdata
    let flags := if idx.unique && !overwrite then DB_NOOVERWRITE else 0
    let (r, db) := ops.put idx.db kdbt vdbt flags
    if r = 0 then ({ idx with db := db }, none)
    else ({ idx with db := db }, some Failure.verify)

/-- The loop of `IndexDetails::insert` over the extracted keys. -/
def Ops.insertLoop (ops : Ops) (obj primary_key : BSONObj) (overwrite : Bool) :
    List BSONObj → IndexDetails → IndexDetails × Option Failure
  | [], idx => (idx, none)
  | ki :: rest, idx =>
    let r :=
      if idx.isIdIndex then ops.insertPair idx ki none obj overwrite
      else if idx.clustering then ops.insertPair idx ki (some primary_key) obj overwrite
      else ops.insertPair idx ki (some primary_key) BSONObj.empty overwrite
    match r with
    | (idx, none) => ops.insertLoop obj primary_key overwrite rest idx
    | (idx, some f) => (idx, some f)

/-- The method `IndexDetails::insert`. -/
def Ops.insert (ops : Ops) (idx : IndexDetails) (obj primary_key : BSONObj)
    (overwrite : Bool) : IndexDetails × Option Failure :=
  let keys := ops.getKeys obj
  let idx := if keys.length > 1 then idx.setIndexIsMultikey else idx
  ops.insertLoop obj primary_key overwrite keys idx

/-- The loop of `IndexDetails::deleteObject` over the extracted keys. -/
def Ops.deleteLoop (ops : Ops) (pk : BSONObj) :
    List BSONObj → IndexDetails → IndexDetails × Option Failure
  | [], idx => (idx, none)
  | key :: rest, idx =>
    let kdbt := index_key_init key (if !idx.isIdIndex then some pk else none)
    let flags := DB_DELETE_ANY
    let (r, db) := ops.del idx.db kdbt flags
    if r = 0 then ops.deleteLoop pk rest { idx with db := db }
    else ({ idx with db := db }, some Failure.verify)

/-- The method `IndexDetails::deleteObject`. -/
def Ops.deleteObject (ops : Ops) (idx : IndexDetails) (pk obj : BSONObj) :
    IndexDetails × Option Failure :=
  ops.deleteLoop pk (ops.getKeys obj) idx

/-! ## IndexCursor (indexcursor.cpp) -/

/-- The `FieldRangeVectorIterator` as the cursor uses it: `advance` returns a
verdict (`-2` exhausted, `-1` in range, otherwise a skip) and the next state of
the iterator. -/
structure BoundsIterator (σ : Type) where
  advance : σ → BSONObj → Int × σ
  prepDive : σ → σ

/-- The state of the iterator after `n` calls of `advance` with the same key. -/
def BoundsIterator.stateAfter {σ : Type} (it : BoundsIterator σ) (b : σ) (key : BSONObj) :
    Nat → σ
  | 0 => b
  | n + 1 => (it.advance (it.stateAfter b key n) key).2

/-- The verdict of call number `n + 1` of `advance` with the same key. -/
def BoundsIterator.verdict {σ : Type} (it : BoundsIterator σ) (b : σ) (key : BSONObj)
    (n : Nat) : Int :=
  (it.advance (it.stateAfter b key n) key).1

/-- The members of an `IndexCursor`.  `d_idx` stands for `_d` and `_idx`, which
are null together; `cursor` is `none` while `_cursor` is null. -/
structure IndexCursor (σ : Type) where
  d_idx : Option IndexDetails
  startKey : BSONObj
  endKey : BSONObj
  endKeyInclusive : Bool
  multiKey : Bool
  direction : Int
  independentFieldRanges : Bool
  boundsIterator : Option σ
  nscanned : Int
  cursor : Option DBC
  currKey : BSONObj
  currPK : BSONObj
  currObj : BSONObj

namespace IndexCursor

variable {σ : Type}

/-- The method `ok()`: the cursor has a current key. -/
def ok (c : IndexCursor σ) : Bool := !c.currKey.isEmpty

/-- The function `sgn`. -/
def sgn (i : Int) : Int :=
  if i = 0 then 0
  else if i > 0 then 1 else -1

/-- The method `checkEnd`. -/
def checkEnd (ops : Ops) (c : IndexCursor σ) : Except Failure (IndexCursor σ) :=
  if c.currKey.isEmpty then pure c
  else if !c.endKey.isEmpty then do
    verify c.d_idx.isSome
    let cmp := sgn (ops.woCompare c.endKey c.currKey)
    if (cmp ≠ 0 ∧ cmp ≠ c.direction) ∨ (cmp = 0 ∧ !c.endKeyInclusive) then
      pure { c with currKey := BSONObj.empty }
    else pure c
  else pure c

/-- The method `skipOutOfRangeKeysAndCheckEnd`. -/
def skipOutOfRangeKeysAndCheckEnd (it : BoundsIterator σ) (c : IndexCursor σ) :
    Except Failure (Bool × IndexCursor σ) :=
  if !c.ok then pure (false, c)
  else
    match c.boundsIterator with
    | none => throw Failure.verify
    | some b =>
      let (ret, b) := it.advance b c.currKey
      let c := { c with boundsIterator := some b }
      if ret = -2 then pure (false, { c with currKey := BSONObj.empty })
      else if ret = -1 then pure (false, { c with nscanned := c.nscanned + 1 })
      else pure (true, { c with nscanned := c.nscanned + 1 })

/-- The inner `do ... while` loop of `checkCurrentAgainstBounds`; the counter
bounds the number of passes, which `startNscanned + 20` limits to 21. -/
def skipLoop (it : BoundsIterator σ) (startNscanned : Int) :
    Nat → IndexCursor σ → Except Failure (IndexCursor σ)
  | 0, c => pure c
  | n + 1, c =>
    if c.nscanned > startNscanned + 20 then pure c
    else do
      let (again, c) ← skipOutOfRangeKeysAndCheckEnd it c
      if again then skipLoop it startNscanned n c else pure c

/-- The method `checkCurrentAgainstBounds`. -/
def checkCurrentAgainstBounds (ops : Ops) (it : BoundsIterator σ) (c : IndexCursor σ) :
    Except Failure (Bool × IndexCursor σ) := do
  let c ←
    if !c.independentFieldRanges then do
      let c ← checkEnd ops c
      if c.ok then pure { c with nscanned := c.nscanned + 1 } else pure c
    else do
      let startNscanned := c.nscanned
      let (again, c) ← skipOutOfRangeKeysAndCheckEnd it c
      if !again then pure c
      else skipLoop it startNscanned 21 c
  pure (c.ok, c)

/-- The callback of a raw cursor operation, run on the entry it found, and the
members it writes. -/
def getf (c : IndexCursor σ) (r : Int × DBC × Option (DBT × DBT)) :
    Except Failure (IndexCursor σ) :=
  match r with
  | (_, dbc, some (key, val)) => do
    let extra ← cursor_getf key val ⟨c.currKey, c.currPK, c.currObj⟩
    pure { c with cursor := some dbc, currKey := extra.key, currPK := extra.pk,
                  currObj := extra.val }
  | (_, dbc, none) => pure { c with cursor := some dbc }

/-- The method `initializeDBC`. -/
def initializeDBC (ops : Ops) (it : BoundsIterator σ) (c : IndexCursor σ) :
    Except Failure (IndexCursor σ) :=
  match c.d_idx with
  | some idx => do
    let dbc : DBC := ⟨none⟩
    let key_dbt : DBT := c.startKey.getOwned.objdata
    let c ←
      if c.direction > 0 then getf c (ops.c_getf_set_range idx.db dbc key_dbt)
      else getf c (ops.c_getf_set_range_reverse idx.db dbc key_dbt)
    let (_, c) ← checkCurrentAgainstBounds ops it c
    pure c
  | none => pure c

/-- The constructor for a simple range `[startKey, endKey]`. -/
def make (ops : Ops) (it : BoundsIterator σ) (d_idx : Option IndexDetails)
    (startKey endKey : BSONObj) (endKeyInclusive : Bool) (direction : Int) :
    Except Failure (IndexCursor σ) :=
  let fix (k : BSONObj) : BSONObj :=
    match d_idx, ops.fixKey with
    | some _, some f => f k
    | _, _ => k
  initializeDBC ops it
    { d_idx := d_idx
      startKey := fix startKey
      endKey := fix endKey
      endKeyInclusive := endKeyInclusive
      multiKey := match d_idx with
        | some idx => idx.multikey
        | none => false
      direction := direction
      independentFieldRanges := false
      boundsIterator := none
      nscanned := 0
      cursor := none
      currKey := BSONObj.empty
      currPK := BSONObj.empty
      currObj := BSONObj.empty }

/-- The constructor for a field range vector: `bounds` is the fresh state of the
iterator made from the vector and `singleIntervalLimit`, `boundsStartKey` is
`_bounds->startKey()`. -/
def makeBounds (ops : Ops) (it : BoundsIterator σ) (d_idx : Option IndexDetails)
    (bounds : σ) (boundsStartKey : BSONObj) (direction : Int) :
    Except Failure (IndexCursor σ) :=
  let b := it.prepDive (it.advance bounds boundsStartKey).2
  initializeDBC ops it
    { d_idx := d_idx
      startKey := boundsStartKey
      endKey := BSONObj.empty
      endKeyInclusive := true
      multiKey := match d_idx with
        | some idx => idx.multikey
        | none => false
      direction := direction
      independentFieldRanges := true
      boundsIterator := some b
      nscanned := 0
      cursor := none
      currKey := BSONObj.empty
      currPK := BSONObj.empty
      currObj := BSONObj.empty }

/-- The method `advance`; `interrupt` tells whether `checkForInterrupt` throws. -/
def advance (ops : Ops) (it : BoundsIterator σ) (interrupt : Bool) (c : IndexCursor σ) :
    Except Failure (Bool × IndexCursor σ) :=
  if interrupt then throw Failure.interrupted
  else if c.currKey.isEmpty then pure (false, c)
  else
    match c.d_idx, c.cursor with
    | some idx, some dbc => do
      let c := { c with currKey := BSONObj.empty, currPK := BSONObj.empty,
                        currObj := BSONObj.empty }
      let c ←
        if c.direction > 0 then getf c (c_getf_next idx.db dbc)
        else getf c (c_getf_prev idx.db dbc)
      checkCurrentAgainstBounds ops it c
    | _, _ => throw Failure.verify

/-- What a positioned cursor exposes: current key, primary key and the stored
document. -/
def exposed (c : IndexCursor σ) : BSONObj × BSONObj × BSONObj :=
  (c.currKey, c.currPK, c.currObj)

/-- The entries a caller sees when it reads the cursor and calls `advance()`
for as long as the cursor is `ok()`, with the cursor at the end.  The counter
bounds the number of calls. -/
def collect (ops : Ops) (it : BoundsIterator σ) :
    Nat → IndexCursor σ → Except Failure (List (BSONObj × BSONObj × BSONObj) × IndexCursor σ)
  | 0, c => pure ([], c)
  | n + 1, c =>
    if c.ok then do
      let (_, c1) ← advance ops it false c
      let (l, c2) ← collect ops it n c1
      pure (c.exposed :: l, c2)
    else pure ([], c)

/-- The cursor after `n` calls of `advance()` in a row, none interrupted. -/
def advanceTimes (ops : Ops) (it : BoundsIterator σ) :
    Nat → IndexCursor σ → Except Failure (IndexCursor σ)
  | 0, c => pure c
  | n + 1, c => do
    let (_, c1) ← advance ops it false c
    advanceTimes ops it n c1

/-- The cursors a caller can hold: those a constructor returned and those a call
of `advance()` left behind. -/
inductive Reachable (ops : Ops) (it : BoundsIterator σ) : IndexCursor σ → Prop
  | make (d_idx : Option IndexDetails) (startKey endKey : BSONObj) (endKeyInclusive : Bool)
      (direction : Int) (c : IndexCursor σ) :
      IndexCursor.make ops it d_idx startKey endKey endKeyInclusive direction = Except.ok c →
      Reachable ops it c
  | makeBounds (d_idx : Option IndexDetails) (bounds : σ) (boundsStartKey : BSONObj)
      (direction : Int) (c : IndexCursor σ) :
      IndexCursor.makeBounds ops it d_idx bounds boundsStartKey direction = Except.ok c →
      Reachable ops it c
  | advance (c c1 : IndexCursor σ) (more : Bool) :
      Reachable ops it c → IndexCursor.advance ops it false c = Except.ok (more, c1) →
      Reachable ops it c1

end IndexCursor

/-! ## Vocabulary of the statements about scans -/

/-- What `cursor_getf` reads from a stored entry into fresh members. -/
def decodeEntry (e : DBT × DBT) : BSONObj × BSONObj × BSONObj :=
  match cursor_getf e.1 e.2 ⟨BSONObj.empty, BSONObj.empty, BSONObj.empty⟩ with
  | Except.ok x => (x.key, x.pk, x.val)
  | Except.error _ => (BSONObj.empty, BSONObj.empty, BSONObj.empty)

/-- The entries of the simple range from `lo` to `hi` under the key pattern:
`lo ≤ k ≤ hi` for the composite key `k`, with `lo < k` when `loInclusive` is
false and `k < hi` when `hiInclusive` is false. -/
def Ops.inRange (ops : Ops) (lo hi : BSONObj) (loInclusive hiInclusive : Bool)
    (e : DBT × DBT) : Bool :=
  (if loInclusive then decide (ops.woCompare lo (keyOf e.1) ≤ 0)
    else decide (ops.woCompare lo (keyOf e.1) < 0))
  && (if hiInclusive then decide (ops.woCompare (keyOf e.1) hi ≤ 0)
    else decide (ops.woCompare (keyOf e.1) hi < 0))

/-- The start or end key a simple-range cursor keeps: `fixKey` of the index type
applied to the key when the index has a type, the key itself otherwise. -/
def Ops.fixed (ops : Ops) (k : BSONObj) : BSONObj :=
  match ops.fixKey with
  | some f => f k
  | none => k

/-- The test of `checkEnd` on a current key: true when the key is kept. -/
def IndexCursor.endOk (ops : Ops) (endKey : BSONObj) (endKeyInclusive : Bool)
    (direction : Int) (currKey : BSONObj) : Bool :=
  endKey.isEmpty ||
    !(decide ((IndexCursor.sgn (ops.woCompare endKey currKey) ≠ 0
          ∧ IndexCursor.sgn (ops.woCompare endKey currKey) ≠ direction)
        ∨ (IndexCursor.sgn (ops.woCompare endKey currKey) = 0 ∧ endKeyInclusive = false)))

/-- The entries that lie ahead of position `i` in the direction of the scan,
nearest first. -/
def remaining (direction : Int) (db : Store) (i : Nat) : List (DBT × DBT) :=
  if direction > 0 then db.drop (i + 1) else (db.take i).reverse

/-- The members of a simple-range cursor over an index when the constructor
calls `initializeDBC`. -/
def IndexCursor.fresh {σ : Type} (idx : IndexDetails) (startKey endKey : BSONObj)
    (endKeyInclusive : Bool) (direction : Int) : IndexCursor σ :=
  { d_idx := some idx
    startKey := startKey
    endKey := endKey
    endKeyInclusive := endKeyInclusive
    multiKey := idx.multikey
    direction := direction
    independentFieldRanges := false
    boundsIterator := none
    nscanned := 0
    cursor := none
    currKey := BSONObj.empty
    currPK := BSONObj.empty
    currObj := BSONObj.empty }

/-- A cursor whose current key, primary key and document are reset to empty. -/
def IndexCursor.reset {σ : Type} (c : IndexCursor σ) : IndexCursor σ :=
  { c with currKey := BSONObj.empty, currPK := BSONObj.empty, currObj := BSONObj.empty }

/-- A cursor whose current key is cleared. -/
def IndexCursor.clearKey {σ : Type} (c : IndexCursor σ) : IndexCursor σ :=
  { c with currKey := BSONObj.empty }

/-- A cursor with the raw cursor at position `i`, the members read from the
entry `e` there, and the given scan counter. -/
def IndexCursor.atEntry {σ : Type} (base : IndexCursor σ) (i : Nat) (e : DBT × DBT) (n : Int) :
    IndexCursor σ :=
  { base with cursor := some ⟨some i⟩, currKey := (decodeEntry e).1,
              currPK := (decodeEntry e).2.1, currObj := (decodeEntry e).2.2, nscanned := n }

/-! ## Sequences of operations on an index -/

/-- The two operations of `IndexDetails` that documents go through. -/
inductive IndexOp where
  | insert (obj primary_key : BSONObj) (overwrite : Bool)
  | deleteObject (pk obj : BSONObj)

/-- The index after one operation, whether it returned or threw. -/
def Ops.applyOp (ops : Ops) (idx : IndexDetails) : IndexOp → IndexDetails
  | IndexOp.insert obj primary_key overwrite => (ops.insert idx obj primary_key overwrite).1
  | IndexOp.deleteObject pk obj => (ops.deleteObject idx pk obj).1

/-- The index after a sequence of operations. -/
def Ops.run (ops : Ops) (idx : IndexDetails) (l : List IndexOp) : IndexDetails :=
  l.foldl ops.applyOp idx

/-! ## An index shared with other transactions -/

/-- Modelled from the spec: the dictionary is shared with the transactions that
run at the same time, and the uniqueness check and the `put` of `insertPair` are
two operations on it ("the check and the write are not a single atomic store
operation").  This is `insertPair` (index.cpp 201-220) where `others` are the
operations that other transactions commit after the uniqueness check of this
call and before its `put`; with no such operation it is `Ops.insertPair`. -/
def Ops.insertPairRacing (ops : Ops) (others : List IndexOp) (idx : IndexDetails)
    (key : BSONObj) (pk : Option BSONObj) (val : BSONObj) (overwrite : Bool) :
    IndexDetails × Option Failure :=
  match ops.uniqueCheck idx key with
  | some f => (idx, some f)
  | none =>
    let idx := ops.run idx others
    let kdbt := index_key_init key pk
    let vdbt := val.getOwned.objdata
    let flags := if idx.unique && !overwrite then DB_NOOVERWRITE else 0
    let (r, db) := ops.put idx.db kdbt vdbt flags
    if r = 0 then ({ idx with db := db }, none)
    else ({ idx with db := db }, some Failure.verify)

/-- The loop of `IndexDetails::insert` on a shared index: `others ki` are the
operations of other transactions between the check and the `put` of the key
`ki`. -/
def Ops.insertLoopRacing (ops : Ops) (others : BSONObj → List IndexOp)
    (obj primary_key : BSONObj) (overwrite : Bool) :
    List BSONObj → IndexDetails → IndexDetails × Option Failure
  | [], idx => (idx, none)
  | ki :: rest, idx =>
    let r :=
      if idx.isIdIndex then ops.insertPairRacing (others ki) idx ki none obj overwrite
      else if idx.clustering then
        ops.insertPairRacing (others ki) idx ki (some primary_key) obj overwrite
      else ops.insertPairRacing (others ki) idx ki (some primary_key) BSONObj.empty overwrite
    match r with
    | (idx, none) => ops.insertLoopRacing others obj primary_key overwrite rest idx
    | (idx, some f) => (idx, some f)

/-- The method `IndexDetails::insert` on a shared index. -/
def Ops.insertRacing (ops : Ops) (others : BSONObj → List IndexOp) (idx : IndexDetails)
    (obj primary_key : BSONObj) (overwrite : Bool) : IndexDetails × Option Failure :=
  let keys := ops.getKeys obj
  let idx := if keys.length > 1 then idx.setIndexIsMultikey else idx
  ops.insertLoopRacing others obj primary_key overwrite keys idx

/-! ## An instance: an ascending index on the field `a`

Objects whose values are 32-bit integers (type 16), null (type 10), undefined
(type 6) or arrays of these (type 4), with the key extraction and the comparison
of an index with key pattern `{a: 1}`.  It instantiates `Ops` on concrete
documents. -/

namespace Example

/-- The four bytes of a size or of a 32-bit integer. -/
def int32Bytes (n : Nat) : Bytes :=
  [n % 256, n / 256 % 256, n / 65536 % 256, n / 16777216 % 256]

/-- The object made of the given elements. -/
def mkObj (elems : List BSONElement) : BSONObj :=
  let body := elems.flatMap (fun e => e.type :: (e.fieldName ++ 0 :: e.value))
  ⟨int32Bytes (body.length + 5) ++ body ++ [0]⟩

/-- The elements that start at the given bytes. -/
def elementsAux : Nat → Bytes → List BSONElement
  | 0, _ => []
  | _ + 1, [] => []
  | n + 1, t :: rest =>
    if t = 0 then []
    else
      let name := rest.takeWhile (fun b => decide (b ≠ 0))
      let after := (rest.dropWhile (fun b => decide (b ≠ 0))).drop 1
      let len := if t = 16 then 4 else if t = 4 then (readInt32 after).toNat else 0
      ⟨t, name, after.take len⟩ :: elementsAux n (after.drop len)

/-- The elements of an object. -/
def elements (o : BSONObj) : List BSONElement :=
  elementsAux o.objdata.length (o.getOwned.objdata.drop 4)

/-- The method `BSONElement::ok()` of the BSON library, `!eoo()`: an element is
ok unless it is the end-of-object marker (type 0).  A null (type 10) or undefined
(type 6) element is ok. -/
def ok (e : BSONElement) : Bool := decide (e.type ≠ 0)

/-- The position of an object in the order: its first element when that is an
integer, below every integer otherwise. -/
def rank (o : BSONObj) : Int :=
  match elements o with
  | e :: _ => if e.type = 16 then readInt32 e.value else -4294967296
  | [] => -4294967297

/-- The comparison of two objects by their first element. -/
def woCompare (a b : BSONObj) : Int := rank a - rank b

/-- The key with the given element as its only field, under the empty name. -/
def keyFor (e : BSONElement) : BSONObj := mkObj [⟨e.type, [], e.value⟩]

/-- Insertion of a key in a list ordered by `woCompare` without equal keys. -/
def insertKey (k : BSONObj) : List BSONObj → List BSONObj
  | [] => [k]
  | x :: xs =>
    if woCompare k x < 0 then k :: x :: xs
    else if woCompare k x = 0 then x :: xs
    else x :: insertKey k xs

/-- The keys of a document: one for the field `a`, or one for each element of
the array when `a` is an array; the null key when there is no field `a`. -/
def getKeys (obj : BSONObj) : List BSONObj :=
  match (elements obj).find? (fun e => decide (e.fieldName = [97])) with
  | some e =>
    if e.type = 4 then
      ((elements ⟨e.value⟩).map keyFor).foldr insertKey []
    else [keyFor e]
  | none => [keyFor ⟨10, [], []⟩]

/-- The functions of the index `{a: 1}`. -/
def ops : Ops where
  elements := elements
  ok := ok
  woCompare := woCompare
  pkCompare := woCompare
  getKeys := getKeys
  fixKey := none

/-- The document `{a: n, _id: i}`. -/
def doc (n i : Nat) : BSONObj :=
  mkObj [⟨16, [97], int32Bytes n⟩, ⟨16, [95, 105, 100], int32Bytes i⟩]

/-- The document `{a: null, _id: i}`. -/
def docNull (i : Nat) : BSONObj :=
  mkObj [⟨10, [97], []⟩, ⟨16, [95, 105, 100], int32Bytes i⟩]

/-- The document `{a: undefined, _id: i}`. -/
def docUndefined (i : Nat) : BSONObj :=
  mkObj [⟨6, [97], []⟩, ⟨16, [95, 105, 100], int32Bytes i⟩]

/-- The document `{a: [n, m], _id: i}`. -/
def docArray (n m i : Nat) : BSONObj :=
  mkObj [⟨4, [97], (mkObj [⟨16, [48], int32Bytes n⟩, ⟨16, [49], int32Bytes m⟩]).objdata⟩,
    ⟨16, [95, 105, 100], int32Bytes i⟩]

/-- The key `{"": n}`. -/
def key (n : Nat) : BSONObj := mkObj [⟨16, [], int32Bytes n⟩]

/-- The null key. -/
def keyNull : BSONObj := mkObj [⟨10, [], []⟩]

/-- The undefined key. -/
def keyUndefined : BSONObj := mkObj [⟨6, [], []⟩]

/-- The primary key `{_id: i}`. -/
def pkey (i : Nat) : BSONObj := mkObj [⟨16, [95, 105, 100], int32Bytes i⟩]

/-- An index with the given flags and an empty dictionary. -/
def emptyIndex (isIdIndex clustering unique : Bool) : IndexDetails :=
  { isIdIndex := isIdIndex, clustering := clustering, unique := unique, db := [],
    multikey := false }

/-- The index on `{a: 1}` that holds `{a: 1, _id: 1}`, `{a: 2, _id: 2}` and
`{a: 3, _id: 3}`. -/
def index123 : IndexDetails :=
  { isIdIndex := false, clustering := false, unique := false, multikey := false,
    db := [(index_key_init (key 1) (some (pkey 1)), BSONObj.empty.objdata),
           (index_key_init (key 2) (some (pkey 2)), BSONObj.empty.objdata),
           (index_key_init (key 3) (some (pkey 3)), BSONObj.empty.objdata)] }

/-- A bounds iterator without state that draws the same verdict for every key. -/
def constIterator (verdict : Int) : BoundsIterator Unit where
  advance := fun s _ => (verdict, s)
  prepDive := fun s => s

/-- A cursor over `index123` in the mode of a field range vector, positioned on
the first entry before the bounds are checked. -/
def boundsCursor : IndexCursor Unit :=
  { d_idx := some index123
    startKey := key 1
    endKey := BSONObj.empty
    endKeyInclusive := true
    multiKey := false
    direction := 1
    independentFieldRanges := true
    boundsIterator := some ()
    nscanned := 0
    cursor := some ⟨some 0⟩
    currKey := key 1
    currPK := pkey 1
    currObj := BSONObj.empty }

/-- A cursor of the forward scan of `index123` from `{a: 1}` to the end key
`{a: 2}`, after `advance()` has moved the raw cursor to the entry `{a: 2, _id: 2}`
and before the end check. -/
def endCursor (endKeyInclusive : Bool) : IndexCursor Unit :=
  { d_idx := some index123
    startKey := key 1
    endKey := key 2
    endKeyInclusive := endKeyInclusive
    multiKey := false
    direction := 1
    independentFieldRanges := false
    boundsIterator := none
    nscanned := 1
    cursor := some ⟨some 1⟩
    currKey := key 2
    currPK := pkey 2
    currObj := BSONObj.empty }

end Example

/-! ## Basic facts -/

theorem toInt32_of_lt {n : Nat} (h : n < 2147483648) : toInt32 n = (n : Int) := by
  unfold toInt32
  have h1 : n % 4294967296 = n := Nat.mod_eq_of_lt (by omega)
  rw [h1]
  simp [h]

theorem BSONObj.getOwned_of_valid {o : BSONObj} (h : o.Valid) : o.getOwned = o := by
  obtain ⟨h1, _⟩ := h
  cases o with
  | mk d =>
    simp only [BSONObj.getOwned, BSONObj.objsize] at *
    rw [h1]
    simp

theorem BSONObj.Valid.length_lt {o : BSONObj} (h : o.Valid) :
    o.objdata.length < 1073741824 := by
  have := h.2.2
  unfold BSONObj.maxInternalSize at this
  omega

/-- The size field of a buffer depends only on its first four bytes. -/
theorem readInt32_append {a : Bytes} (b : Bytes) (h : 4 ≤ a.length) :
    readInt32 (a ++ b) = readInt32 a := by
  unfold readInt32
  have e : ∀ i, i < 4 → (a ++ b).getD i 0 = a.getD i 0 := by
    intro i hi
    simp only [List.getD_eq_getElem?_getD]
    rw [List.getElem?_append_left (by omega)]
  rw [e 0 (by omega), e 1 (by omega), e 2 (by omega), e 3 (by omega)]

/-- The buffer that `index_key_init` fills has the size that `index_key_size`
computes for it. -/
theorem index_key_init_length {key : BSONObj} (hk : key.Valid) (pk : Option BSONObj)
    (hpk : ∀ p, pk = some p → p.Valid) :
    ((index_key_init key pk).length : Int) = index_key_size key pk := by
  cases pk with
  | none =>
    simp only [index_key_init, index_key_size, BSONObj.getOwned_of_valid hk, List.append_nil,
      add_zero]
    exact hk.1.symm
  | some p =>
    have hp := hpk p rfl
    simp only [index_key_init, index_key_size, BSONObj.getOwned_of_valid hk,
      BSONObj.getOwned_of_valid hp, List.length_append, Nat.cast_add]
    rw [hk.1, hp.1]

/-! ## Lists -/

theorem get?_findIdx {α : Type} (p : α → Bool) (l : List α) :
    l.get? (l.findIdx p) = l.find? p := by
  induction l with
  | nil => simp
  | cons a l ih =>
    rw [List.findIdx_cons, List.find?_cons]
    cases h : p a with
    | true => simp
    | false => simpa using ih

theorem find?_some_pairwise {α : Type} {R : α → α → Prop} {p : α → Bool} {l : List α} {e : α}
    (hR : l.Pairwise R) (h : l.find? p = some e) :
    e ∈ l ∧ p e = true ∧ ∀ x ∈ l, p x = true → x = e ∨ R e x := by
  induction l with
  | nil => simp at h
  | cons a l ih =>
    rw [List.pairwise_cons] at hR
    rw [List.find?_cons] at h
    cases hp : p a with
    | true =>
      rw [hp] at h
      simp only [Option.some.injEq] at h
      subst h
      refine ⟨by simp, hp, ?_⟩
      intro x hx _
      rcases List.mem_cons.1 hx with rfl | hx
      · exact Or.inl rfl
      · exact Or.inr (hR.1 x hx)
    | false =>
      rw [hp] at h
      obtain ⟨h1, h2, h3⟩ := ih hR.2 h
      refine ⟨List.mem_cons_of_mem _ h1, h2, ?_⟩
      intro x hx hpx
      rcases List.mem_cons.1 hx with rfl | hx
      · rw [hp] at hpx; cases hpx
      · exact h3 x hx hpx

/-! ## Comparisons -/

theorem Ops.Lawful.wo_zero {ops : Ops} (hl : ops.Lawful) {a b : BSONObj}
    (h : ops.woCompare a b = 0) : ops.woCompare b a = 0 := by
  have h1 := hl.wo_swap a b
  have h2 := hl.wo_swap b a
  omega

theorem Ops.Lawful.wo_refl {ops : Ops} (hl : ops.Lawful) (a : BSONObj) :
    ops.woCompare a a = 0 := by
  have h1 := hl.wo_swap a a
  omega

theorem Ops.Lawful.pk_refl {ops : Ops} (hl : ops.Lawful) (a : BSONObj) :
    ops.pkCompare a a = 0 := by
  have h1 := hl.pk_swap a a
  omega

theorem keyOf_objdata {k : BSONObj} (hk : k.Valid) : keyOf k.objdata = k := by
  unfold keyOf
  exact BSONObj.getOwned_of_valid hk

/-- Against a bare key the dictionary compares composite keys only. -/
theorem Ops.dbtCompare_bare (ops : Ops) (d : DBT) {k : BSONObj} (hk : k.Valid) :
    ops.dbtCompare d k.objdata
      = if ops.woCompare (keyOf d) k < 0 then -1
        else if ops.woCompare (keyOf d) k > 0 then 1 else 0 := by
  have hlen := hk.length_lt
  have h2 : ¬ (toInt32 k.objdata.length - (BSONObj.mk k.objdata).objsize > 0) := by
    rw [toInt32_of_lt (by omega)]
    have := hk.1
    simp only [BSONObj.objsize] at *
    omega
  simp only [Ops.dbtCompare, keyOf_objdata hk, h2, and_false, if_false]

theorem index_key_init_none {k : BSONObj} (hk : k.Valid) :
    index_key_init k none = k.objdata := by
  simp [index_key_init, BSONObj.getOwned_of_valid hk]

theorem Ops.uniqueCheckCallback_wf (ops : Ops) {d : DBT} (h : wellFormedKey d = true)
    (newkey : BSONObj) :
    ops.uniqueCheckCallback (some d) newkey true
      = Except.ok (decide (ops.woCompare newkey (keyOf d) ≠ 0)) := by
  simp only [wellFormedKey, Bool.and_eq_true, Bool.or_eq_true, decide_eq_true_eq] at h
  obtain ⟨⟨h1, h2⟩, h3⟩ := h
  have h5 : ¬ (readInt32 d ≤ 5) := by omega
  by_cases hlt : readInt32 d < toInt32 d.length
  · have h3' : 5 < readInt32 (d.drop (readInt32 d).toNat)
        ∧ readInt32 d + readInt32 (d.drop (readInt32 d).toNat) = toInt32 d.length := by
      rcases h3 with h3 | h3
      · omega
      · exact h3
    have h6 : ¬ (readInt32 (d.drop (readInt32 d).toNat) ≤ 5) := by omega
    have h7 : readInt32 (d.drop (readInt32 d).toNat) = toInt32 d.length - readInt32 d := by
      omega
    simp only [Ops.uniqueCheckCallback, BSONObj.objsize, BSONObj.isEmpty, keyOf, h1, h5, hlt,
      h6, h7]
    have h8 : 5 + readInt32 d < toInt32 d.length := by omega
    simp [verify, bind, Except.bind, pure, Except.pure, h8]
  · simp only [Ops.uniqueCheckCallback, BSONObj.objsize, BSONObj.isEmpty, keyOf, h1, h5, hlt]
    simp [verify, bind, Except.bind, pure, Except.pure]

theorem Ops.hasNotOk_eq_true (ops : Ops) (l : List BSONElement) :
    ops.hasNotOk l = true ↔ ∃ e ∈ l, ops.ok e = false := by
  induction l with
  | nil => simp [Ops.hasNotOk]
  | cons a l ih =>
    cases h : ops.ok a <;> simp [Ops.hasNotOk, h, ih]

/-! ## The uniqueness check -/

/-- With a valid key whose elements are all `ok()`, the check seeks the first
entry whose composite key is not below the key and compares the two. -/
theorem Ops.uniqueCheck_eq (ops : Ops) (idx : IndexDetails) {k : BSONObj} (hk : k.Valid)
    (hwf : ∀ e ∈ idx.db, wellFormedKey e.1 = true)
    (hok : ∀ e ∈ ops.elements k, ops.ok e = true) :
    ops.uniqueCheck idx k =
      match idx.db.find? (fun e => decide (0 ≤ ops.woCompare (keyOf e.1) k)) with
      | some e => if ops.woCompare k (keyOf e.1) = 0 then some (Failure.uassert 16433) else none
      | none => none := by
  have hno : ops.hasNotOk (ops.elements k) = false := by
    cases h : ops.hasNotOk (ops.elements k) with
    | false => rfl
    | true =>
      obtain ⟨e, he, hf⟩ := (ops.hasNotOk_eq_true _).1 h
      rw [hok e he] at hf
      cases hf
  have hp : (fun e : DBT × DBT => decide (0 ≤ ops.dbtCompare e.1 k.objdata))
      = (fun e => decide (0 ≤ ops.woCompare (keyOf e.1) k)) := by
    funext e
    rw [ops.dbtCompare_bare e.1 hk]
    congr 1
    apply propext
    constructor <;> intro h <;> split_ifs at * <;> omega
  simp only [Ops.uniqueCheck, hno, Bool.false_eq_true, if_false, index_key_init_none hk,
    Ops.c_getf_set_range, hp, get?_findIdx]
  cases hf : idx.db.find? (fun e => decide (0 ≤ ops.woCompare (keyOf e.1) k)) with
  | none => simp [Ops.uniqueCheckCallback, pure, Except.pure, DB_NOTFOUND]
  | some e =>
    have hmem : e ∈ idx.db := List.mem_of_find?_eq_some hf
    simp only [Option.map_some', ops.uniqueCheckCallback_wf (hwf e hmem)]
    by_cases hc : ops.woCompare k (keyOf e.1) = 0 <;> simp [hc]

/-- C1. For a valid key whose elements are all `ok()` (every key with no null or
undefined component is one), over a dictionary ordered by composite key whose stored keys are
well formed: `uniqueCheck` fails with the duplicate-key error 16433 exactly when
the composite key of some stored entry compares equal to the key under the key
pattern (whatever primary key follows it), and returns normally otherwise.
The method is `const`: it returns no new index, the dictionary is untouched. -/
theorem uniqueCheck_duplicate_iff (ops : Ops) (hl : ops.Lawful) (idx : IndexDetails)
    (k : BSONObj) (hk : k.Valid)
    (hsorted : idx.db.Pairwise (fun e1 e2 => ops.woCompare (keyOf e1.1) (keyOf e2.1) ≤ 0))
    (hwf : ∀ e ∈ idx.db, wellFormedKey e.1 = true)
    (hok : ∀ e ∈ ops.elements k, ops.ok e = true) :
    (ops.uniqueCheck idx k = some (Failure.uassert 16433)
        ↔ ∃ e ∈ idx.db, ops.woCompare k (keyOf e.1) = 0)
    ∧ ((¬ ∃ e ∈ idx.db, ops.woCompare k (keyOf e.1) = 0) → ops.uniqueCheck idx k = none) := by
  rw [ops.uniqueCheck_eq idx hk hwf hok]
  cases hf : idx.db.find? (fun e => decide (0 ≤ ops.woCompare (keyOf e.1) k)) with
  | none =>
    have hnone := List.find?_eq_none.1 hf
    have hno : ¬ ∃ e ∈ idx.db, ops.woCompare k (keyOf e.1) = 0 := by
      rintro ⟨e, he, h0⟩
      have := hnone e he
      have := hl.wo_zero h0
      simp at *
      omega
    simp [hno]
  | some e =>
    obtain ⟨hmem, hpe, hfirst⟩ := find?_some_pairwise hsorted hf
    simp only [decide_eq_true_eq] at hpe hfirst
    by_cases hc : ops.woCompare k (keyOf e.1) = 0
    · simp only [hc, if_true, true_iff]
      exact ⟨⟨e, hmem, hc⟩, fun h => absurd ⟨e, hmem, hc⟩ h⟩
    · have hno : ¬ ∃ e ∈ idx.db, ops.woCompare k (keyOf e.1) = 0 := by
        rintro ⟨x, hx, h0⟩
        have hx0 := hl.wo_zero h0
        rcases hfirst x hx (by omega) with rfl | hR
        · exact hc h0
        · have := hl.wo_trans _ _ _ hR (le_of_eq hx0)
          have h1 := hl.wo_swap k (keyOf e.1)
          have h2 := hl.wo_swap (keyOf e.1) k
          omega
      simp [hc, hno]

/-- The early return of `uniqueCheck`: a key with an element that is not `ok()`
is not checked, whatever the dictionary holds, and `insertPair` does not fail with
the duplicate-key error for such a key. -/
theorem Ops.uniqueCheck_of_notOk (ops : Ops) (idx : IndexDetails) (key : BSONObj)
    (h : ∃ e ∈ ops.elements key, ops.ok e = false) :
    ops.uniqueCheck idx key = none
    ∧ ∀ (pk : Option BSONObj) (val : BSONObj) (overwrite : Bool),
        (ops.insertPair idx key pk val overwrite).2 ≠ some (Failure.uassert 16433) := by
  have h1 : ops.uniqueCheck idx key = none := by
    simp [Ops.uniqueCheck, (ops.hasNotOk_eq_true _).2 h]
  refine ⟨h1, ?_⟩
  intro pk val overwrite
  simp only [Ops.insertPair, h1]
  split_ifs <;> simp

theorem Example.ops_lawful : Example.ops.Lawful where
  wo_swap := by
    intro a b
    simp only [Example.ops, Example.woCompare]
    omega
  wo_trans := by
    intro a b c
    simp only [Example.ops, Example.woCompare]
    omega
  pk_swap := by
    intro a b
    simp only [Example.ops, Example.woCompare]
    omega

/-- A unique index on `{a: 1}` after the insert of `{a: 5, _id: 1}`: the second
insert of `{a: 5}` fails with the duplicate-key error, as the theorem says of
the key `{"": 5}`. -/
theorem uniqueCheck_duplicate_iff_witness :
    (Example.ops.insert (Example.emptyIndex false false true) (Example.doc 5 1)
        (Example.pkey 1) false)
      = ({ isIdIndex := false, clustering := false, unique := true, multikey := false,
           db := [(index_key_init (Example.key 5) (some (Example.pkey 1)),
                   BSONObj.empty.objdata)] }, none)
    ∧ (Example.ops.insert
        { isIdIndex := false, clustering := false, unique := true, multikey := false,
          db := [(index_key_init (Example.key 5) (some (Example.pkey 1)),
                  BSONObj.empty.objdata)] }
        (Example.doc 5 2) (Example.pkey 2) false).2 = some (Failure.uassert 16433)
    ∧ ((Example.ops.uniqueCheck
          { isIdIndex := false, clustering := false, unique := true, multikey := false,
            db := [(index_key_init (Example.key 5) (some (Example.pkey 1)),
                    BSONObj.empty.objdata)] }
          (Example.key 5) = some (Failure.uassert 16433)
        ↔ ∃ e ∈ [(index_key_init (Example.key 5) (some (Example.pkey 1)),
                  BSONObj.empty.objdata)],
            Example.ops.woCompare (Example.key 5) (keyOf e.1) = 0)
      ∧ ((¬ ∃ e ∈ [(index_key_init (Example.key 5) (some (Example.pkey 1)),
                  BSONObj.empty.objdata)],
            Example.ops.woCompare (Example.key 5) (keyOf e.1) = 0)
          → Example.ops.uniqueCheck
              { isIdIndex := false, clustering := false, unique := true, multikey := false,
                db := [(index_key_init (Example.key 5) (some (Example.pkey 1)),
                        BSONObj.empty.objdata)] }
              (Example.key 5) = none)) :=
  ⟨by decide, by decide,
    uniqueCheck_duplicate_iff Example.ops Example.ops_lawful
      { isIdIndex := false, clustering := false, unique := true, multikey := false,
        db := [(index_key_init (Example.key 5) (some (Example.pkey 1)),
                BSONObj.empty.objdata)] }
      (Example.key 5) (by decide) (by decide) (by decide) (by decide)⟩

/-- C2, as stated, fails on the code.  Every element of the null key and of the
undefined key is `ok()`, so the early return of `uniqueCheck` ("If one of the key
fields is null, we just insert it.") is not taken: in a unique index on `{a: 1}`
the first insert of `{a: null}` succeeds, and the second is checked like any other
key, fails with the duplicate-key error 16433 and writes nothing.  The same holds
for `{a: undefined}`. -/
theorem uniqueCheck_checks_null_key :
    (Example.ops.elements Example.keyNull = [⟨10, [], []⟩]
      ∧ Example.ops.elements Example.keyUndefined = [⟨6, [], []⟩]
      ∧ Example.ops.ok ⟨10, [], []⟩ = true ∧ Example.ops.ok ⟨6, [], []⟩ = true
      ∧ Example.ops.hasNotOk (Example.ops.elements Example.keyNull) = false
      ∧ Example.ops.hasNotOk (Example.ops.elements Example.keyUndefined) = false)
    ∧ (Example.ops.insert (Example.emptyIndex false false true) (Example.docNull 1)
        (Example.pkey 1) false)
      = ({ isIdIndex := false, clustering := false, unique := true, multikey := false,
           db := [(index_key_init Example.keyNull (some (Example.pkey 1)),
                   BSONObj.empty.objdata)] }, none)
    ∧ Example.ops.uniqueCheck
        { isIdIndex := false, clustering := false, unique := true, multikey := false,
          db := [(index_key_init Example.keyNull (some (Example.pkey 1)),
                  BSONObj.empty.objdata)] }
        Example.keyNull = some (Failure.uassert 16433)
    ∧ (Example.ops.insert
        { isIdIndex := false, clustering := false, unique := true, multikey := false,
          db := [(index_key_init Example.keyNull (some (Example.pkey 1)),
                  BSONObj.empty.objdata)] }
        (Example.docNull 2) (Example.pkey 2) false)
      = ({ isIdIndex := false, clustering := false, unique := true, multikey := false,
           db := [(index_key_init Example.keyNull (some (Example.pkey 1)),
                   BSONObj.empty.objdata)] }, some (Failure.uassert 16433))
    ∧ (Example.ops.insert (Example.emptyIndex false false true) (Example.docUndefined 1)
        (Example.pkey 1) false)
      = ({ isIdIndex := false, clustering := false, unique := true, multikey := false,
           db := [(index_key_init Example.keyUndefined (some (Example.pkey 1)),
                   BSONObj.empty.objdata)] }, none)
    ∧ (Example.ops.insert
        { isIdIndex := false, clustering := false, unique := true, multikey := false,
          db := [(index_key_init Example.keyUndefined (some (Example.pkey 1)),
                  BSONObj.empty.objdata)] }
        (Example.docUndefined 2) (Example.pkey 2) false)
      = ({ isIdIndex := false, clustering := false, unique := true, multikey := false,
           db := [(index_key_init Example.keyUndefined (some (Example.pkey 1)),
                   BSONObj.empty.objdata)] }, some (Failure.uassert 16433)) := by
  refine ⟨⟨by decide, by decide, by decide, by decide, by decide, by decide⟩,
    by decide, by decide, by decide, by decide, by decide⟩

/-- C3. On an index that is not unique, `insert` runs the uniqueness check all
the same: with `{a: 5, _id: 1}` stored, the insert of `{a: 5, _id: 2}` fails with
the duplicate-key error and writes nothing; so does an insert with
`overwrite = true` into a unique index. -/
theorem insert_nonunique_duplicate_fails :
    Example.ops.insert
        { isIdIndex := false, clustering := false, unique := false, multikey := false,
          db := [(index_key_init (Example.key 5) (some (Example.pkey 1)),
                  BSONObj.empty.objdata)] }
        (Example.doc 5 2) (Example.pkey 2) false
      = ({ isIdIndex := false, clustering := false, unique := false, multikey := false,
           db := [(index_key_init (Example.key 5) (some (Example.pkey 1)),
                   BSONObj.empty.objdata)] }, some (Failure.uassert 16433))
    ∧ Example.ops.insert
        { isIdIndex := false, clustering := false, unique := true, multikey := false,
          db := [(index_key_init (Example.key 5) (some (Example.pkey 1)),
                  BSONObj.empty.objdata)] }
        (Example.doc 5 2) (Example.pkey 2) true
      = ({ isIdIndex := false, clustering := false, unique := true, multikey := false,
           db := [(index_key_init (Example.key 5) (some (Example.pkey 1)),
                   BSONObj.empty.objdata)] }, some (Failure.uassert 16433)) := by
  constructor <;> decide

/-! ## put and del -/

theorem Ops.Lawful.dbtCompare_self {ops : Ops} (hl : ops.Lawful) (key : DBT) :
    ops.dbtCompare key key = 0 := by
  simp [Ops.dbtCompare, hl.wo_refl, hl.pk_refl]

/-- The dictionary after a successful `put`. -/
theorem Ops.put_ok (ops : Ops) {db db1 : Store} {key val : DBT} {flags : Nat}
    (h : ops.put db key val flags = (0, db1)) :
    db1 = (db.filter (fun e => decide (ops.dbtCompare e.1 key ≠ 0))).takeWhile
            (fun e => decide (ops.dbtCompare e.1 key < 0)) ++ (key, val) ::
          (db.filter (fun e => decide (ops.dbtCompare e.1 key ≠ 0))).dropWhile
            (fun e => decide (ops.dbtCompare e.1 key < 0)) := by
  unfold Ops.put at h
  split_ifs at h with hc
  · simp [DB_KEYEXIST] at h
  · simp only [Prod.mk.injEq, true_and] at h
    exact h.symm

/-- A successful `put` leaves the other keys as they were. -/
theorem Ops.put_filter_other (ops : Ops) (hl : ops.Lawful) {db db1 : Store} {key val : DBT}
    {flags : Nat} (h : ops.put db key val flags = (0, db1)) (p : DBT × DBT → Bool)
    (hp : ∀ e, p e = true → ops.dbtCompare e.1 key ≠ 0) :
    db1.filter p = db.filter p := by
  have hkv : p (key, val) = false := by
    cases hpk : p (key, val) with
    | false => rfl
    | true =>
      have h1 : ops.dbtCompare key key ≠ 0 := hp (key, val) hpk
      exact absurd (hl.dbtCompare_self key) h1
  rw [ops.put_ok h, List.filter_append, List.filter_cons, hkv]
  simp only [Bool.false_eq_true, if_false]
  rw [← List.filter_append, List.takeWhile_append_dropWhile, List.filter_filter]
  apply List.filter_congr
  intro e _
  cases hpe : p e with
  | false => simp
  | true => simpa using hp e hpe

/-- After a successful `put` the dictionary holds the entry. -/
theorem Ops.put_mem (ops : Ops) {db db1 : Store} {key val : DBT} {flags : Nat}
    (h : ops.put db key val flags = (0, db1)) : (key, val) ∈ db1 := by
  rw [ops.put_ok h]
  simp

/-- After a successful `put` the entries at the key are the one entry written. -/
theorem Ops.put_filter_self (ops : Ops) (hl : ops.Lawful) {db db1 : Store} {key val : DBT}
    {flags : Nat} (h : ops.put db key val flags = (0, db1)) :
    db1.filter (fun e => decide (ops.dbtCompare e.1 key = 0)) = [(key, val)] := by
  rw [ops.put_ok h, List.filter_append, List.filter_cons]
  simp only [hl.dbtCompare_self, decide_True, if_true]
  have h1 : ∀ l : Store, (∀ e ∈ l, ops.dbtCompare e.1 key ≠ 0) →
      l.filter (fun e => decide (ops.dbtCompare e.1 key = 0)) = [] := by
    intro l hl1
    rw [List.filter_eq_nil_iff]
    intro e he
    simpa using hl1 e he
  have hrest : ∀ e ∈ db.filter (fun e => decide (ops.dbtCompare e.1 key ≠ 0)),
      ops.dbtCompare e.1 key ≠ 0 := by
    intro e he
    simpa using (List.mem_filter.1 he).2
  rw [h1 _ (fun e he => hrest e (List.takeWhile_subset _ he)),
    h1 _ (fun e he => hrest e (List.dropWhile_subset _ he))]
  rfl

/-- Every entry after a successful `put` is the entry written or was there. -/
theorem Ops.put_subset (ops : Ops) {db db1 : Store} {key val : DBT} {flags : Nat}
    (h : ops.put db key val flags = (0, db1)) :
    ∀ e ∈ db1, e = (key, val) ∨ e ∈ db := by
  intro e he
  rw [ops.put_ok h] at he
  rcases List.mem_append.1 he with he | he
  · exact Or.inr (List.mem_filter.1 (List.takeWhile_subset _ he)).1
  · rcases List.mem_cons.1 he with he | he
    · exact Or.inl he
    · exact Or.inr (List.mem_filter.1 (List.dropWhile_subset _ he)).1

/-! ## insertPair, insert and deleteObject -/

/-- A successful `insertPair` is a successful `put` of the stored key and value. -/
theorem Ops.insertPair_ok (ops : Ops) {idx idx1 : IndexDetails} {key val : BSONObj}
    {pk : Option BSONObj} {overwrite : Bool}
    (h : ops.insertPair idx key pk val overwrite = (idx1, none)) :
    idx1 = { idx with db := idx1.db }
    ∧ ops.put idx.db (index_key_init key pk) val.getOwned.objdata
        (if idx.unique && !overwrite then DB_NOOVERWRITE else 0) = (0, idx1.db) := by
  unfold Ops.insertPair at h
  cases hu : ops.uniqueCheck idx key with
  | some f => simp [hu] at h
  | none =>
    simp only [hu] at h
    generalize hput : ops.put idx.db (index_key_init key pk) val.getOwned.objdata
        (if idx.unique && !overwrite then DB_NOOVERWRITE else 0) = r at h
    obtain ⟨r1, r2⟩ := r
    simp only at h
    split_ifs at h with hr
    · simp only [Prod.mk.injEq, and_true] at h
      subst h
      simp [hr]
    · simp at h

/-- The stored key that `deleteObject` deletes for an extracted key. -/
theorem Ops.insertLoop_step (ops : Ops) {idx idx2 : IndexDetails} {obj pk ki : BSONObj}
    {overwrite : Bool} {rest : List BSONObj}
    (h : ops.insertLoop obj pk overwrite (ki :: rest) idx = (idx2, none)) :
    ∃ idx1, ops.insertPair idx ki (if !idx.isIdIndex then some pk else none)
        (if idx.isIdIndex || idx.clustering then obj else BSONObj.empty) overwrite = (idx1, none)
      ∧ ops.insertLoop obj pk overwrite rest idx1 = (idx2, none) := by
  unfold Ops.insertLoop at h
  cases hid : idx.isIdIndex <;> cases hcl : idx.clustering <;>
    simp only [hid, hcl, Bool.false_eq_true, if_false, if_true] at h <;>
    split at h <;> first
      | (rename_i idx1 heq
         exact ⟨idx1, by simpa using heq, h⟩)
      | simp at h

theorem Ops.insertPair_flags (ops : Ops) (idx : IndexDetails) (key val : BSONObj)
    (pk : Option BSONObj) (overwrite : Bool) :
    (ops.insertPair idx key pk val overwrite).1.isIdIndex = idx.isIdIndex
    ∧ (ops.insertPair idx key pk val overwrite).1.clustering = idx.clustering
    ∧ (ops.insertPair idx key pk val overwrite).1.unique = idx.unique
    ∧ (ops.insertPair idx key pk val overwrite).1.multikey = idx.multikey := by
  unfold Ops.insertPair
  cases ops.uniqueCheck idx key with
  | some f => simp
  | none =>
    simp only
    split_ifs <;> simp

theorem Ops.insertLoop_flags (ops : Ops) (obj pk : BSONObj) (overwrite : Bool)
    (keys : List BSONObj) (idx : IndexDetails) :
    (ops.insertLoop obj pk overwrite keys idx).1.isIdIndex = idx.isIdIndex
    ∧ (ops.insertLoop obj pk overwrite keys idx).1.clustering = idx.clustering
    ∧ (ops.insertLoop obj pk overwrite keys idx).1.unique = idx.unique
    ∧ (ops.insertLoop obj pk overwrite keys idx).1.multikey = idx.multikey := by
  induction keys generalizing idx with
  | nil => simp [Ops.insertLoop]
  | cons ki rest ih =>
    unfold Ops.insertLoop
    have key : ∀ r : IndexDetails × Option Failure,
        r.1.isIdIndex = idx.isIdIndex ∧ r.1.clustering = idx.clustering
          ∧ r.1.unique = idx.unique ∧ r.1.multikey = idx.multikey →
        (match r with
          | (idx, none) => ops.insertLoop obj pk overwrite rest idx
          | (idx, some f) => (idx, some f)).1.isIdIndex = idx.isIdIndex
        ∧ (match r with
          | (idx, none) => ops.insertLoop obj pk overwrite rest idx
          | (idx, some f) => (idx, some f)).1.clustering = idx.clustering
        ∧ (match r with
          | (idx, none) => ops.insertLoop obj pk overwrite rest idx
          | (idx, some f) => (idx, some f)).1.unique = idx.unique
        ∧ (match r with
          | (idx, none) => ops.insertLoop obj pk overwrite rest idx
          | (idx, some f) => (idx, some f)).1.multikey = idx.multikey := by
      rintro ⟨i1, _ | f⟩ hr
      · obtain ⟨h1, h2, h3, h4⟩ := ih i1
        simp only at hr ⊢
        exact ⟨h1.trans hr.1, h2.trans hr.2.1, h3.trans hr.2.2.1, h4.trans hr.2.2.2⟩
      · exact hr
    simp only
    split_ifs
    · exact key _ (ops.insertPair_flags _ _ _ _ _)
    · exact key _ (ops.insertPair_flags _ _ _ _ _)
    · exact key _ (ops.insertPair_flags _ _ _ _ _)

/-- The composite key of a stored key built from a valid key. -/
theorem keyOf_index_key_init {k : BSONObj} (hk : k.Valid) (pk : Option BSONObj) :
    keyOf (index_key_init k pk) = k := by
  have e := BSONObj.getOwned_of_valid hk
  obtain ⟨h1, h2, _⟩ := hk
  simp only [BSONObj.objsize] at h1
  unfold keyOf index_key_init
  rw [e]
  generalize (match pk with
    | some p => p.getOwned.objdata
    | none => []) = x
  cases k with
  | mk a =>
    simp only [BSONObj.getOwned, BSONObj.objsize] at *
    rw [readInt32_append _ (by omega), h1]
    simp

theorem Ops.dbtCompare_eq_zero (ops : Ops) {a b : DBT} (h : ops.dbtCompare a b = 0) :
    ops.woCompare (keyOf a) (keyOf b) = 0 := by
  unfold Ops.dbtCompare at h
  simp only at h
  split_ifs at h <;> omega

/-- Keys that differ under the key pattern give stored keys that differ. -/
theorem Ops.Lawful.dbtCompare_ne {ops : Ops} (hl : ops.Lawful) {e : DBT} {k1 k2 : BSONObj}
    (hk1 : k1.Valid) (hk2 : k2.Valid) (pk1 pk2 : Option BSONObj)
    (hne : ops.woCompare k1 k2 ≠ 0)
    (h1 : ops.dbtCompare e (index_key_init k1 pk1) = 0) :
    ops.dbtCompare e (index_key_init k2 pk2) ≠ 0 := by
  intro h2
  have a1 := ops.dbtCompare_eq_zero h1
  have a2 := ops.dbtCompare_eq_zero h2
  rw [keyOf_index_key_init hk1] at a1
  rw [keyOf_index_key_init hk2] at a2
  have b1 := hl.wo_zero a1
  have b2 := hl.wo_zero a2
  have c1 := hl.wo_trans _ _ _ (le_of_eq b1) (le_of_eq a2)
  have c2 := hl.wo_trans _ _ _ (le_of_eq b2) (le_of_eq a1)
  have s1 := hl.wo_swap k1 k2
  have s2 := hl.wo_swap k2 k1
  omega

/-- A successful `insert` loop changes the dictionary only at the stored keys of
the extracted keys. -/
theorem Ops.insertLoop_filter_other (ops : Ops) (hl : ops.Lawful) {obj pk : BSONObj}
    {overwrite : Bool} (p : DBT × DBT → Bool) (keys : List BSONObj) :
    ∀ {idx idx2 : IndexDetails},
    ops.insertLoop obj pk overwrite keys idx = (idx2, none) →
    (∀ e, p e = true → ∀ k ∈ keys,
      ops.dbtCompare e.1 (index_key_init k (if !idx.isIdIndex then some pk else none)) ≠ 0) →
    idx2.db.filter p = idx.db.filter p := by
  induction keys with
  | nil =>
    intro idx idx2 h _
    simp only [Ops.insertLoop, Prod.mk.injEq, and_true] at h
    rw [h]
  | cons ki rest ih =>
    intro idx idx2 h hp
    obtain ⟨idx1, hpair, hrest⟩ := ops.insertLoop_step h
    have hid : idx1.isIdIndex = idx.isIdIndex := by
      have := (ops.insertPair_flags idx ki
        (if idx.isIdIndex || idx.clustering then obj else BSONObj.empty)
        (if !idx.isIdIndex then some pk else none) overwrite).1
      rw [hpair] at this
      exact this
    obtain ⟨_, hput⟩ := ops.insertPair_ok hpair
    rw [ih hrest (by
      intro e he k hk
      rw [hid]
      exact hp e he k (List.mem_cons_of_mem _ hk))]
    exact ops.put_filter_other hl hput p (fun e he => hp e he ki (List.mem_cons_self _ _))

/-- After a successful `insert` loop over distinct valid keys, the entries at the
stored key of each extracted key are the one entry written for it. -/
theorem Ops.insertLoop_filter_self (ops : Ops) (hl : ops.Lawful) {obj pk : BSONObj}
    {overwrite : Bool} (keys : List BSONObj) :
    ∀ {idx idx2 : IndexDetails},
    ops.insertLoop obj pk overwrite keys idx = (idx2, none) →
    (∀ k ∈ keys, k.Valid) →
    keys.Pairwise (fun a b => ops.woCompare a b ≠ 0) →
    ∀ k ∈ keys,
      idx2.db.filter (fun e => decide (ops.dbtCompare e.1
          (index_key_init k (if !idx.isIdIndex then some pk else none)) = 0))
        = [(index_key_init k (if !idx.isIdIndex then some pk else none),
            (if idx.isIdIndex || idx.clustering then obj else BSONObj.empty).getOwned.objdata)] := by
  induction keys with
  | nil => intro idx idx2 _ _ _ k hk; cases hk
  | cons ki rest ih =>
    intro idx idx2 h hv hd k hk
    obtain ⟨idx1, hpair, hrest⟩ := ops.insertLoop_step h
    have hfl := ops.insertPair_flags idx ki
        (if idx.isIdIndex || idx.clustering then obj else BSONObj.empty)
        (if !idx.isIdIndex then some pk else none) overwrite
    rw [hpair] at hfl
    obtain ⟨hid, hcl, _, _⟩ := hfl
    simp only at hid hcl
    obtain ⟨_, hput⟩ := ops.insertPair_ok hpair
    rw [List.pairwise_cons] at hd
    rcases List.mem_cons.1 hk with rfl | hk
    · rw [ops.insertLoop_filter_other hl _ rest hrest]
      · exact ops.put_filter_self hl hput
      · intro e he k2 hk2
        rw [hid]
        simp only [decide_eq_true_eq] at he
        exact hl.dbtCompare_ne (hv k (List.mem_cons_self _ _))
          (hv k2 (List.mem_cons_of_mem _ hk2)) _ _ (hd.1 k2 hk2) he
    · have := ih hrest (fun k hk => hv k (List.mem_cons_of_mem _ hk)) hd.2 k hk
      rw [hid, hcl] at this
      exact this

/-- Every entry after a successful `insert` loop was there or has the stored key
of an extracted key. -/
theorem Ops.insertLoop_subset (ops : Ops) {obj pk : BSONObj} {overwrite : Bool}
    (keys : List BSONObj) :
    ∀ {idx idx2 : IndexDetails},
    ops.insertLoop obj pk overwrite keys idx = (idx2, none) →
    ∀ e ∈ idx2.db, e ∈ idx.db ∨ ∃ k ∈ keys,
      e.1 = index_key_init k (if !idx.isIdIndex then some pk else none) := by
  induction keys with
  | nil =>
    intro idx idx2 h e he
    simp only [Ops.insertLoop, Prod.mk.injEq, and_true] at h
    rw [h]
    exact Or.inl he
  | cons ki rest ih =>
    intro idx idx2 h e he
    obtain ⟨idx1, hpair, hrest⟩ := ops.insertLoop_step h
    have hfl := ops.insertPair_flags idx ki
        (if idx.isIdIndex || idx.clustering then obj else BSONObj.empty)
        (if !idx.isIdIndex then some pk else none) overwrite
    rw [hpair] at hfl
    obtain ⟨hid, _, _, _⟩ := hfl
    simp only at hid
    obtain ⟨_, hput⟩ := ops.insertPair_ok hpair
    rcases ih hrest e he with h1 | ⟨k, hk, hek⟩
    · rcases ops.put_subset hput e h1 with h2 | h2
      · exact Or.inr ⟨ki, List.mem_cons_self _ _, by rw [h2]⟩
      · exact Or.inl h2
    · exact Or.inr ⟨k, List.mem_cons_of_mem _ hk, by rw [hek, hid]⟩

/-- The loop of `deleteObject` never fails and removes the entries at the stored
keys of the extracted keys. -/
theorem Ops.deleteLoop_eq (ops : Ops) (pk : BSONObj) (keys : List BSONObj) :
    ∀ idx : IndexDetails,
    ops.deleteLoop pk keys idx
      = ({ idx with db := idx.db.filter (fun e => keys.all (fun k =>
            decide (ops.dbtCompare e.1
              (index_key_init k (if !idx.isIdIndex then some pk else none)) ≠ 0))) }, none) := by
  induction keys with
  | nil => intro idx; simp [Ops.deleteLoop]
  | cons key rest ih =>
    intro idx
    simp only [Ops.deleteLoop, Ops.del, ne_eq, not_true_eq_false, false_and, if_false, if_true,
      ih, List.filter_filter, List.all_cons]
    congr 2
    apply List.filter_congr
    intro e _
    rw [Bool.and_comm]

theorem Ops.deleteLoop_flags (ops : Ops) (pk : BSONObj) (keys : List BSONObj)
    (idx : IndexDetails) : (ops.deleteLoop pk keys idx).1.multikey = idx.multikey := by
  rw [ops.deleteLoop_eq]

theorem mem_of_filter_eq_singleton {α : Type} {p : α → Bool} {l : List α} {x : α}
    (h : l.filter p = [x]) : x ∈ l := by
  have hm : x ∈ l.filter p := by
    rw [h]
    exact List.mem_singleton_self x
  exact (List.mem_filter.1 hm).1

/-! ## What insert writes -/

/-- C4 (amended). After a successful `insert` of a document whose extracted keys
are valid and pairwise different, the dictionary holds, for every extracted key
`k`, exactly one entry at its stored key, shaped by the kind of index: for the
primary (id) index the stored key is `k` with no primary key after it and the
stored value is the document, clustering or not; for a clustering secondary
index the stored key is `k` followed by `pk` and the stored value is the
document; for any other index the stored key is `k` followed by `pk` and the
stored value is the empty object. -/
theorem insert_writes_one_entry_per_key (ops : Ops) (hl : ops.Lawful)
    (idx idx1 : IndexDetails) (obj pk : BSONObj) (overwrite : Bool)
    (hv : ∀ k ∈ ops.getKeys obj, k.Valid)
    (hd : (ops.getKeys obj).Pairwise (fun a b => ops.woCompare a b ≠ 0))
    (h : ops.insert idx obj pk overwrite = (idx1, none)) :
    ∀ k ∈ ops.getKeys obj,
      (idx.isIdIndex = true →
        idx1.db.filter (fun e => decide (ops.dbtCompare e.1 (index_key_init k none) = 0))
          = [(index_key_init k none, obj.getOwned.objdata)])
      ∧ (idx.isIdIndex = false → idx.clustering = true →
        idx1.db.filter (fun e => decide (ops.dbtCompare e.1 (index_key_init k (some pk)) = 0))
          = [(index_key_init k (some pk), obj.getOwned.objdata)])
      ∧ (idx.isIdIndex = false → idx.clustering = false →
        idx1.db.filter (fun e => decide (ops.dbtCompare e.1 (index_key_init k (some pk)) = 0))
          = [(index_key_init k (some pk), BSONObj.empty.objdata)]) := by
  intro k hk
  unfold Ops.insert at h
  have key := ops.insertLoop_filter_self hl (ops.getKeys obj) h hv hd k hk
  have hid : (if (ops.getKeys obj).length > 1 then idx.setIndexIsMultikey else idx).isIdIndex
      = idx.isIdIndex := by split_ifs <;> rfl
  have hcl : (if (ops.getKeys obj).length > 1 then idx.setIndexIsMultikey else idx).clustering
      = idx.clustering := by split_ifs <;> rfl
  rw [hid, hcl] at key
  refine ⟨?_, ?_, ?_⟩
  · intro h1
    simpa [h1] using key
  · intro h1 h2
    simpa [h1, h2] using key
  · intro h1 h2
    have he : BSONObj.empty.getOwned.objdata = BSONObj.empty.objdata := by decide
    simpa [h1, h2, he] using key

/-- A secondary index on `{a: 1}` that is not clustering: the insert of
`{a: [7, 3], _id: 9}` writes one entry for the key 3 and one for the key 7, each
followed by the primary key, with the empty object as value. -/
theorem insert_writes_one_entry_per_key_witness :
    (∀ k ∈ Example.ops.getKeys (Example.docArray 7 3 9), k.Valid)
    ∧ (Example.ops.getKeys (Example.docArray 7 3 9)).Pairwise
        (fun a b => Example.ops.woCompare a b ≠ 0)
    ∧ Example.ops.insert (Example.emptyIndex false false false) (Example.docArray 7 3 9)
        (Example.pkey 9) false
      = ({ isIdIndex := false, clustering := false, unique := false, multikey := true,
           db := [(index_key_init (Example.key 3) (some (Example.pkey 9)), BSONObj.empty.objdata),
                  (index_key_init (Example.key 7) (some (Example.pkey 9)), BSONObj.empty.objdata)] },
         none)
    ∧ List.filter (fun e => decide (Example.ops.dbtCompare e.1
          (index_key_init (Example.key 7) (some (Example.pkey 9))) = 0))
        [(index_key_init (Example.key 3) (some (Example.pkey 9)), BSONObj.empty.objdata),
         (index_key_init (Example.key 7) (some (Example.pkey 9)), BSONObj.empty.objdata)]
      = [(index_key_init (Example.key 7) (some (Example.pkey 9)), BSONObj.empty.objdata)] :=
  ⟨by decide, by decide, by decide,
    ((insert_writes_one_entry_per_key Example.ops Example.ops_lawful
      (Example.emptyIndex false false false)
      { isIdIndex := false, clustering := false, unique := false, multikey := true,
        db := [(index_key_init (Example.key 3) (some (Example.pkey 9)), BSONObj.empty.objdata),
               (index_key_init (Example.key 7) (some (Example.pkey 9)), BSONObj.empty.objdata)] }
      (Example.docArray 7 3 9) (Example.pkey 9) false (by decide) (by decide) (by decide)
      (Example.key 7) (by decide)).2.2 rfl rfl)⟩

/-- C4, as stated, fails on a primary (id) index that is not clustering: the
insert of `{a: 1, _id: 1}` stores the key with no primary key after it and the
document itself as value, not the empty object. -/
theorem insert_idIndex_stores_document :
    (Example.emptyIndex true false true).isIdIndex = true
    ∧ (Example.emptyIndex true false true).clustering = false
    ∧ Example.ops.insert (Example.emptyIndex true false true) (Example.doc 1 1)
        (Example.pkey 1) false
      = ({ isIdIndex := true, clustering := false, unique := true, multikey := false,
           db := [(index_key_init (Example.key 1) none, (Example.doc 1 1).objdata)] }, none)
    ∧ (Example.doc 1 1).objdata ≠ BSONObj.empty.objdata := by
  decide

/-! ## deleteObject undoes insert -/

/-- C5. For every kind of index, with `K k` the stored key that `deleteObject`
builds for an extracted key `k` (the key alone for the id index, the key followed
by `pk` otherwise): `deleteObject` always succeeds and removes exactly the
entries at the keys `K k`; a successful `insert` of the same document and primary
key leaves an entry with key `K k` for every extracted `k` and adds entries at
these keys only; so when the dictionary held no entry at any `K k`, `deleteObject`
after a successful `insert` gives the dictionary back as it was, and `deleteObject`
alone leaves the index unchanged. -/
theorem deleteObject_deletes_what_insert_writes (ops : Ops) (hl : ops.Lawful)
    (idx : IndexDetails) (obj pk : BSONObj)
    (hv : ∀ k ∈ ops.getKeys obj, k.Valid)
    (hd : (ops.getKeys obj).Pairwise (fun a b => ops.woCompare a b ≠ 0)) :
    ops.deleteObject idx pk obj
      = ({ idx with db := idx.db.filter (fun e => (ops.getKeys obj).all (fun k =>
            decide (ops.dbtCompare e.1
              (index_key_init k (if !idx.isIdIndex then some pk else none)) ≠ 0))) }, none)
    ∧ (∀ (overwrite : Bool) (idx1 : IndexDetails),
        ops.insert idx obj pk overwrite = (idx1, none) →
        (∀ k ∈ ops.getKeys obj, ∃ e ∈ idx1.db,
            e.1 = index_key_init k (if !idx.isIdIndex then some pk else none))
        ∧ (∀ e ∈ idx1.db, e ∈ idx.db ∨ ∃ k ∈ ops.getKeys obj,
            e.1 = index_key_init k (if !idx.isIdIndex then some pk else none))
        ∧ ((∀ e ∈ idx.db, ∀ k ∈ ops.getKeys obj, ops.dbtCompare e.1
              (index_key_init k (if !idx.isIdIndex then some pk else none)) ≠ 0) →
            ops.deleteObject idx1 pk obj = ({ idx1 with db := idx.db }, none)))
    ∧ ((∀ e ∈ idx.db, ∀ k ∈ ops.getKeys obj, ops.dbtCompare e.1
          (index_key_init k (if !idx.isIdIndex then some pk else none)) ≠ 0) →
        ops.deleteObject idx pk obj = (idx, none)) := by
  have hfilter : (∀ e ∈ idx.db, ∀ k ∈ ops.getKeys obj, ops.dbtCompare e.1
        (index_key_init k (if !idx.isIdIndex then some pk else none)) ≠ 0) →
      idx.db.filter (fun e => (ops.getKeys obj).all (fun k =>
          decide (ops.dbtCompare e.1
            (index_key_init k (if !idx.isIdIndex then some pk else none)) ≠ 0))) = idx.db := by
    intro hfresh
    rw [List.filter_eq_self]
    intro e he
    rw [List.all_eq_true]
    intro k hk
    simpa using hfresh e he k hk
  refine ⟨ops.deleteLoop_eq pk _ idx, ?_, ?_⟩
  · intro overwrite idx1 h
    unfold Ops.insert at h
    have hid : (if (ops.getKeys obj).length > 1 then idx.setIndexIsMultikey else idx).isIdIndex
        = idx.isIdIndex := by split_ifs <;> rfl
    have hdb : (if (ops.getKeys obj).length > 1 then idx.setIndexIsMultikey else idx).db
        = idx.db := by split_ifs <;> rfl
    have hid1 : idx1.isIdIndex = idx.isIdIndex := by
      have := (ops.insertLoop_flags obj pk overwrite (ops.getKeys obj)
        (if (ops.getKeys obj).length > 1 then idx.setIndexIsMultikey else idx)).1
      rw [h, hid] at this
      exact this
    refine ⟨?_, ?_, ?_⟩
    · intro k hk
      have key := ops.insertLoop_filter_self hl (ops.getKeys obj) h hv hd k hk
      rw [hid] at key
      exact ⟨_, mem_of_filter_eq_singleton key, rfl⟩
    · intro e he
      have := ops.insertLoop_subset (ops.getKeys obj) h e he
      rw [hid, hdb] at this
      exact this
    · intro hfresh
      have key := ops.insertLoop_filter_other hl
        (fun e => (ops.getKeys obj).all (fun k =>
          decide (ops.dbtCompare e.1
            (index_key_init k (if !idx.isIdIndex then some pk else none)) ≠ 0)))
        (ops.getKeys obj) h (by
          intro e he k hk
          rw [hid]
          rw [List.all_eq_true] at he
          simpa using he k hk)
      rw [hdb, hfilter hfresh] at key
      unfold Ops.deleteObject
      rw [ops.deleteLoop_eq, hid1, key]
  · intro hfresh
    unfold Ops.deleteObject
    rw [ops.deleteLoop_eq, hfilter hfresh]

/-- A secondary index on `{a: 1}` that holds `{a: 1, _id: 1}`: the insert of
`{a: [7, 3], _id: 9}` followed by `deleteObject` gives the dictionary back. -/
theorem deleteObject_deletes_what_insert_writes_witness :
    (∀ k ∈ Example.ops.getKeys (Example.docArray 7 3 9), k.Valid)
    ∧ (Example.ops.getKeys (Example.docArray 7 3 9)).Pairwise
        (fun a b => Example.ops.woCompare a b ≠ 0)
    ∧ Example.ops.insert
        { isIdIndex := false, clustering := false, unique := false, multikey := false,
          db := [(index_key_init (Example.key 1) (some (Example.pkey 1)), BSONObj.empty.objdata)] }
        (Example.docArray 7 3 9) (Example.pkey 9) false
      = ({ isIdIndex := false, clustering := false, unique := false, multikey := true,
           db := [(index_key_init (Example.key 1) (some (Example.pkey 1)), BSONObj.empty.objdata),
                  (index_key_init (Example.key 3) (some (Example.pkey 9)), BSONObj.empty.objdata),
                  (index_key_init (Example.key 7) (some (Example.pkey 9)), BSONObj.empty.objdata)] },
         none)
    ∧ Example.ops.deleteObject
        { isIdIndex := false, clustering := false, unique := false, multikey := true,
          db := [(index_key_init (Example.key 1) (some (Example.pkey 1)), BSONObj.empty.objdata),
                 (index_key_init (Example.key 3) (some (Example.pkey 9)), BSONObj.empty.objdata),
                 (index_key_init (Example.key 7) (some (Example.pkey 9)), BSONObj.empty.objdata)] }
        (Example.pkey 9) (Example.docArray 7 3 9)
      = ({ isIdIndex := false, clustering := false, unique := false, multikey := true,
           db := [(index_key_init (Example.key 1) (some (Example.pkey 1)),
                   BSONObj.empty.objdata)] }, none) :=
  ⟨by decide, by decide, by decide,
    ((deleteObject_deletes_what_insert_writes Example.ops Example.ops_lawful
      { isIdIndex := false, clustering := false, unique := false, multikey := false,
        db := [(index_key_init (Example.key 1) (some (Example.pkey 1)), BSONObj.empty.objdata)] }
      (Example.docArray 7 3 9) (Example.pkey 9) (by decide) (by decide)).2.1 false
      { isIdIndex := false, clustering := false, unique := false, multikey := true,
        db := [(index_key_init (Example.key 1) (some (Example.pkey 1)), BSONObj.empty.objdata),
               (index_key_init (Example.key 3) (some (Example.pkey 9)), BSONObj.empty.objdata),
               (index_key_init (Example.key 7) (some (Example.pkey 9)), BSONObj.empty.objdata)] }
      (by decide)).2.2 (by decide)⟩

/-! ## The multikey flag -/

/-- C10. `insert` leaves the multikey flag set exactly when it was set before or
the key extraction yields more than one key (whether the insert then succeeds or
throws); `deleteObject` does not change the flag; hence after any sequence of
`insert` and `deleteObject` a flag that was true is still true. -/
theorem multikey_set_and_never_cleared (ops : Ops) (idx : IndexDetails) :
    (∀ (obj pk : BSONObj) (overwrite : Bool),
        (ops.insert idx obj pk overwrite).1.multikey
          = (idx.multikey || decide ((ops.getKeys obj).length > 1)))
    ∧ (∀ pk obj : BSONObj, (ops.deleteObject idx pk obj).1.multikey = idx.multikey)
    ∧ (∀ l : List IndexOp, idx.multikey = true → (ops.run idx l).multikey = true) := by
  have hins : ∀ (idx : IndexDetails) (obj pk : BSONObj) (overwrite : Bool),
      (ops.insert idx obj pk overwrite).1.multikey
        = (idx.multikey || decide ((ops.getKeys obj).length > 1)) := by
    intro idx obj pk overwrite
    unfold Ops.insert
    rw [(ops.insertLoop_flags _ _ _ _ _).2.2.2]
    by_cases h : (ops.getKeys obj).length > 1
    · simp [h, IndexDetails.setIndexIsMultikey]
    · simp [h]
  have hdel : ∀ (idx : IndexDetails) (pk obj : BSONObj),
      (ops.deleteObject idx pk obj).1.multikey = idx.multikey := by
    intro idx pk obj
    exact ops.deleteLoop_flags pk _ idx
  refine ⟨hins idx, hdel idx, ?_⟩
  intro l
  induction l generalizing idx with
  | nil => intro h; exact h
  | cons op l ih =>
    intro h
    unfold Ops.run
    rw [List.foldl_cons]
    apply ih
    cases op with
    | insert obj pk overwrite =>
      simp only [Ops.applyOp]
      rw [hins, h]
      rfl
    | deleteObject pk obj =>
      simp only [Ops.applyOp]
      rw [hdel, h]

/-- An index on `{a: 1}` after the insert of `{a: [7, 3], _id: 9}`: the flag is
set, and it is still set after the insert of the scalar `{a: 5, _id: 1}` and the
`deleteObject` of the array document. -/
theorem multikey_set_and_never_cleared_witness :
    (Example.ops.insert (Example.emptyIndex false false false) (Example.docArray 7 3 9)
        (Example.pkey 9) false).1.multikey = true
    ∧ (Example.ops.run
        (Example.ops.insert (Example.emptyIndex false false false) (Example.docArray 7 3 9)
          (Example.pkey 9) false).1
        [IndexOp.insert (Example.doc 5 1) (Example.pkey 1) false,
         IndexOp.deleteObject (Example.pkey 9) (Example.docArray 7 3 9)]).multikey = true :=
  ⟨by decide,
    (multikey_set_and_never_cleared Example.ops
      (Example.ops.insert (Example.emptyIndex false false false) (Example.docArray 7 3 9)
        (Example.pkey 9) false).1).2.2 _ (by decide)⟩

/-! ## The bounds check of a field range vector -/

namespace IndexCursor

variable {σ : Type}

theorem skipOutOfRangeKeysAndCheckEnd_eq (it : BoundsIterator σ) (c : IndexCursor σ) (b : σ)
    (hok : c.ok = true) (hb : c.boundsIterator = some b) :
    skipOutOfRangeKeysAndCheckEnd it c = Except.ok
      (if (it.advance b c.currKey).1 = -2 then
        (false, { c with boundsIterator := some (it.advance b c.currKey).2,
                         currKey := BSONObj.empty })
      else if (it.advance b c.currKey).1 = -1 then
        (false, { c with boundsIterator := some (it.advance b c.currKey).2,
                         nscanned := c.nscanned + 1 })
      else
        (true, { c with boundsIterator := some (it.advance b c.currKey).2,
                        nscanned := c.nscanned + 1 })) := by
  simp only [skipOutOfRangeKeysAndCheckEnd, hok, hb, Bool.not_true, Bool.false_eq_true, if_false]
  split_ifs <;> rfl

/-- The counter of the inner loop never cuts it short: once the counter and the
scan counter together exceed `startNscanned + 20`, a larger counter gives the
same result. -/
theorem skipLoop_counter (it : BoundsIterator σ) (start : Int) :
    ∀ (n m : Nat) (c : IndexCursor σ), start + 20 < c.nscanned + n → n ≤ m →
      skipLoop it start m c = skipLoop it start n c := by
  intro n
  induction n with
  | zero =>
    intro m c h _
    have hgt : c.nscanned > start + 20 := by
      simp only [Nat.cast_zero, add_zero] at h
      omega
    cases m with
    | zero => rfl
    | succ m => simp only [skipLoop, hgt, if_true]
  | succ n ih =>
    intro m c h hm
    obtain ⟨m, rfl⟩ : ∃ k, m = k + 1 := ⟨m - 1, by omega⟩
    simp only [skipLoop]
    by_cases hgt : c.nscanned > start + 20
    · simp only [hgt, if_true]
    · simp only [hgt, if_false]
      cases hs : skipOutOfRangeKeysAndCheckEnd it c with
      | error f => rfl
      | ok r =>
        obtain ⟨again, c2⟩ := r
        cases again with
        | false => rfl
        | true =>
          simp only [bind, Except.bind, if_true]
          apply ih
          · have hn : c2.nscanned = c.nscanned + 1 := by
              unfold skipOutOfRangeKeysAndCheckEnd at hs
              split_ifs at hs with h1
              · simp [pure, Except.pure] at hs
              · cases hb : c.boundsIterator with
                | none => simp [hb, throw, throwThe, MonadExceptOf.throw] at hs
                | some b =>
                  simp only [hb] at hs
                  split_ifs at hs <;>
                    simp only [pure, Except.pure, Except.ok.injEq, Prod.mk.injEq,
                      Bool.false_eq_true, false_and, true_and] at hs
                  subst hs
                  rfl
            rw [hn]
            push_cast at h ⊢
            omega
          · omega

/-- The inner loop, entered after `j` skip verdicts: if it leaves the cursor
positioned, it stopped on an in-range verdict or after 21 skip verdicts. -/
theorem skipLoop_positioned (it : BoundsIterator σ) (start : Int) (b0 : σ) (key : BSONObj)
    (hkey : key.isEmpty = false) :
    ∀ (fuel j : Nat) (c c1 : IndexCursor σ), 1 ≤ j → 22 ≤ j + fuel → j ≤ 21 →
      c.currKey = key → c.boundsIterator = some (it.stateAfter b0 key j) →
      c.nscanned = start + j →
      (∀ i < j, it.verdict b0 key i ≠ -1 ∧ it.verdict b0 key i ≠ -2) →
      skipLoop it start fuel c = Except.ok c1 → c1.ok = true →
      c1.currKey = key ∧ ∃ n : Nat, n ≤ 20 ∧ c1.nscanned = start + ((n : Int) + 1)
        ∧ c1.boundsIterator = some (it.stateAfter b0 key (n + 1))
        ∧ (∀ i < n, it.verdict b0 key i ≠ -1 ∧ it.verdict b0 key i ≠ -2)
        ∧ (it.verdict b0 key n = -1
          ∨ (n = 20 ∧ it.verdict b0 key 20 ≠ -1 ∧ it.verdict b0 key 20 ≠ -2)) := by
  intro fuel
  induction fuel with
  | zero => intro j c c1 _ h2 h3; omega
  | succ fuel ih =>
    intro j c c1 h1 h2 h3 hk hb hn hv hrun hok1
    have hcok : c.ok = true := by simp [ok, hk, hkey]
    unfold skipLoop at hrun
    by_cases hgt : c.nscanned > start + 20
    · simp only [hgt, if_true, pure, Except.pure, Except.ok.injEq] at hrun
      subst hrun
      have hj : j = 21 := by omega
      subst hj
      refine ⟨hk, 20, le_refl _, by rw [hn]; norm_num, hb, ?_, Or.inr ⟨rfl, hv 20 (by omega)⟩⟩
      intro i hi
      exact hv i (by omega)
    · simp only [hgt, if_false, skipOutOfRangeKeysAndCheckEnd_eq it c _ hcok hb, bind,
        Except.bind] at hrun
      rw [hk] at hrun
      have hvd : (it.advance (it.stateAfter b0 key j) key).1 = it.verdict b0 key j := rfl
      have hst : (it.advance (it.stateAfter b0 key j) key).2 = it.stateAfter b0 key (j + 1) := rfl
      rw [hvd, hst] at hrun
      by_cases hm2 : it.verdict b0 key j = -2
      · rw [if_pos hm2] at hrun
        simp only [Bool.false_eq_true, if_false, pure, Except.pure, Except.ok.injEq] at hrun
        subst hrun
        simp [ok, BSONObj.empty, BSONObj.isEmpty, BSONObj.objsize, readInt32, toInt32] at hok1
      · by_cases hm1 : it.verdict b0 key j = -1
        · rw [if_neg hm2, if_pos hm1] at hrun
          simp only [Bool.false_eq_true, if_false, pure, Except.pure, Except.ok.injEq] at hrun
          subst hrun
          refine ⟨rfl, j, by omega, ?_, rfl, hv, Or.inl hm1⟩
          simp only [hn]
          omega
        · rw [if_neg hm2, if_neg hm1] at hrun
          simp only [if_true] at hrun
          refine ih (j + 1) _ c1 (by omega) (by omega) (by omega) ?_ ?_ ?_ ?_ hrun hok1
          · rfl
          · rfl
          · simp only [hn]
            push_cast
            omega
          · intro i hi
            rcases Nat.lt_succ_iff_lt_or_eq.1 hi with h | h
            · exact hv i h
            · subst h
              exact ⟨hm1, hm2⟩


/-- In the mode of a field range vector the check is the first call of
`skipOutOfRangeKeysAndCheckEnd` followed, after a skip verdict, by the loop. -/
theorem checkCurrentAgainstBounds_bounds (ops : Ops) (it : BoundsIterator σ)
    (c : IndexCursor σ) (hind : c.independentFieldRanges = true) :
    checkCurrentAgainstBounds ops it c =
      (skipOutOfRangeKeysAndCheckEnd it c >>= fun r =>
        (if !r.1 then pure r.2 else skipLoop it c.nscanned 21 r.2) >>= fun c1 =>
          pure (c1.ok, c1)) := by
  simp only [checkCurrentAgainstBounds, hind, Bool.not_true, Bool.false_eq_true, if_false,
    bind_assoc]
  cases skipOutOfRangeKeysAndCheckEnd it c with
  | error f => rfl
  | ok r =>
    obtain ⟨again, c2⟩ := r
    cases again <;> rfl

end IndexCursor

/-- C8 (amended). In the mode of a field range vector, whenever
`checkCurrentAgainstBounds` (the last step of construction and of `advance()`)
returns true, the current key is unchanged, the iterator was asked `n + 1 ≤ 21`
times about it, the first `n` verdicts were skips, and either the last verdict
was in range (`-1`), or the call drew 21 skip verdicts in a row and gave up,
leaving the key exposed with the scan counter advanced by 21.  A key that drew
the exhausted verdict (`-2`) is never exposed. -/
theorem checkCurrentAgainstBounds_positioned {σ : Type} (ops : Ops) (it : BoundsIterator σ)
    (c c1 : IndexCursor σ) (b : σ)
    (hind : c.independentFieldRanges = true) (hb : c.boundsIterator = some b)
    (h : IndexCursor.checkCurrentAgainstBounds ops it c = Except.ok (true, c1)) :
    c1.currKey = c.currKey ∧ ∃ n : Nat, n ≤ 20 ∧ c1.nscanned = c.nscanned + ((n : Int) + 1)
      ∧ c1.boundsIterator = some (it.stateAfter b c.currKey (n + 1))
      ∧ (∀ i < n, it.verdict b c.currKey i ≠ -1 ∧ it.verdict b c.currKey i ≠ -2)
      ∧ (it.verdict b c.currKey n = -1
        ∨ (n = 20 ∧ it.verdict b c.currKey 20 ≠ -1 ∧ it.verdict b c.currKey 20 ≠ -2)) := by
  rw [IndexCursor.checkCurrentAgainstBounds_bounds ops it c hind] at h
  have hempty : (BSONObj.empty).isEmpty = true := by decide
  by_cases hcok : c.ok = true
  · have hkey : c.currKey.isEmpty = false := by simpa [IndexCursor.ok] using hcok
    rw [IndexCursor.skipOutOfRangeKeysAndCheckEnd_eq it c b hcok hb] at h
    have hvd : (it.advance b c.currKey).1 = it.verdict b c.currKey 0 := rfl
    have hst : (it.advance b c.currKey).2 = it.stateAfter b c.currKey 1 := rfl
    rw [hvd, hst] at h
    by_cases hm2 : it.verdict b c.currKey 0 = -2
    · rw [if_pos hm2] at h
      simp [bind, Except.bind, pure, Except.pure, IndexCursor.ok, hempty] at h
    · by_cases hm1 : it.verdict b c.currKey 0 = -1
      · rw [if_neg hm2, if_pos hm1] at h
        simp only [bind, Except.bind, pure, Except.pure, Bool.not_false, if_true,
          Except.ok.injEq, Prod.mk.injEq] at h
        obtain ⟨_, h⟩ := h
        subst h
        exact ⟨rfl, 0, by omega, by simp, rfl, by intro i hi; omega, Or.inl hm1⟩
      · rw [if_neg hm2, if_neg hm1] at h
        simp only [bind, Except.bind, pure, Except.pure, Bool.not_true, Bool.false_eq_true,
          if_false] at h
        cases hrun : IndexCursor.skipLoop it c.nscanned 21
            { c with boundsIterator := some (it.stateAfter b c.currKey 1),
                     nscanned := c.nscanned + 1 } with
        | error f => rw [hrun] at h; simp at h
        | ok c2 =>
          rw [hrun] at h
          simp only [Except.ok.injEq, Prod.mk.injEq] at h
          obtain ⟨hok1, h⟩ := h
          subst h
          refine IndexCursor.skipLoop_positioned it c.nscanned b c.currKey hkey 21 1 _ c2
            (by omega) (by omega) (by omega) ?_ ?_ ?_ ?_ hrun hok1
          · rfl
          · rfl
          · simp
          · intro i hi
            have : i = 0 := by omega
            subst this
            exact ⟨hm1, hm2⟩
  · have hcok2 : c.ok = false := by simpa using hcok
    simp [IndexCursor.skipOutOfRangeKeysAndCheckEnd, hcok2, bind, Except.bind, pure,
      Except.pure] at h

/-! ## Decoding the stored entries -/

theorem readInt32_take (d : Bytes) {n : Nat} (h : 4 ≤ n) :
    readInt32 (d.take n) = readInt32 d := by
  unfold readInt32
  have e : ∀ i, i < 4 → (d.take n).getD i 0 = d.getD i 0 := by
    intro i hi
    simp only [List.getD_eq_getElem?_getD]
    rw [List.getElem?_take_of_lt (by omega)]
  rw [e 0 (by omega), e 1 (by omega), e 2 (by omega), e 3 (by omega)]

theorem keyOf_isEmpty {d : DBT} (h : 5 < readInt32 d) : (keyOf d).isEmpty = false := by
  have h4 : 4 ≤ (readInt32 d).toNat := by omega
  simp only [keyOf, BSONObj.getOwned, BSONObj.isEmpty, BSONObj.objsize, readInt32_take d h4,
    decide_eq_false_iff_not]
  omega

theorem wellFormedKey_size {d : DBT} (h : wellFormedKey d = true) : 5 < readInt32 d := by
  simp only [wellFormedKey, Bool.and_eq_true, Bool.or_eq_true, decide_eq_true_eq] at h
  exact h.1.2

/-- The function `cursor_getf` succeeds on a well-formed entry. -/
theorem cursor_getf_wf {key val : DBT} (hk : wellFormedKey key = true)
    (hv : wellFormedVal val = true) (info : cursor_getf_extra) :
    ∃ x, cursor_getf key val info = Except.ok x ∧ x.key = keyOf key
      ∧ x.pk = (if readInt32 key < toInt32 key.length then pkOf key else keyOf key) := by
  simp only [wellFormedKey, Bool.and_eq_true, Bool.or_eq_true, decide_eq_true_eq] at hk
  simp only [wellFormedVal, Bool.or_eq_true, decide_eq_true_eq] at hv
  obtain ⟨⟨h1, h2⟩, h3⟩ := hk
  have h5 : ¬ (readInt32 key ≤ 5) := by omega
  have hval : ∀ i : cursor_getf_extra, ∃ x,
      (if val.length > 0 then do
          let valObj : BSONObj := ⟨val⟩
          verify (decide (valObj.objsize = toInt32 val.length))
          pure { i with val := if valObj.isEmpty then BSONObj.empty else valObj.getOwned }
        else pure i : Except Failure cursor_getf_extra) = Except.ok x ∧ x.key = i.key
          ∧ x.pk = i.pk := by
    intro i
    by_cases hl : val.length > 0
    · have hv2 : readInt32 val = toInt32 val.length := by
        rcases hv with hv | hv
        · omega
        · exact hv
      refine ⟨{ i with val := if (BSONObj.mk val).isEmpty then BSONObj.empty
          else (BSONObj.mk val).getOwned }, ?_, rfl, rfl⟩
      simp [hl, BSONObj.objsize, hv2, verify, bind, Except.bind, pure, Except.pure]
    · exact ⟨i, by simp [hl, pure, Except.pure], rfl, rfl⟩
  by_cases hlt : readInt32 key < toInt32 key.length
  · have h3b : 5 < readInt32 (key.drop (readInt32 key).toNat)
        ∧ readInt32 key + readInt32 (key.drop (readInt32 key).toNat) = toInt32 key.length := by
      rcases h3 with h3 | h3
      · omega
      · exact h3
    have h6 : ¬ (readInt32 (key.drop (readInt32 key).toNat) ≤ 5) := by omega
    obtain ⟨x, hx, hxk, hxp⟩ := hval { info with key := keyOf key, pk := pkOf key }
    refine ⟨x, ?_, hxk, by rw [hxp, if_pos hlt]⟩
    rw [← hx]
    simp only [cursor_getf, BSONObj.objsize, BSONObj.isEmpty, h1, h5, hlt, h6, h3b.2]
    simp [verify, bind, Except.bind, pure, Except.pure, keyOf, pkOf, BSONObj.objsize]
  · obtain ⟨x, hx, hxk, hxp⟩ := hval { info with key := keyOf key, pk := keyOf key }
    refine ⟨x, ?_, hxk, by rw [hxp, if_neg hlt]⟩
    rw [← hx]
    simp only [cursor_getf, BSONObj.objsize, BSONObj.isEmpty, h1, h5, hlt]
    simp [verify, bind, Except.bind, pure, Except.pure, keyOf, BSONObj.objsize]

/-- The entries of a dictionary that the cursor callback accepts. -/
theorem decodeEntry_wf {e : DBT × DBT} (hk : wellFormedKey e.1 = true)
    (hv : wellFormedVal e.2 = true) :
    cursor_getf e.1 e.2 ⟨BSONObj.empty, BSONObj.empty, BSONObj.empty⟩
      = Except.ok ⟨(decodeEntry e).1, (decodeEntry e).2.1, (decodeEntry e).2.2⟩
    ∧ (decodeEntry e).1 = keyOf e.1 ∧ (decodeEntry e).1.isEmpty = false := by
  obtain ⟨x, hx, hxk, _⟩ := cursor_getf_wf hk hv ⟨BSONObj.empty, BSONObj.empty, BSONObj.empty⟩
  have hd : decodeEntry e = (x.key, x.pk, x.val) := by
    simp only [decodeEntry, hx]
  refine ⟨?_, ?_, ?_⟩
  · rw [hx, hd]
  · rw [hd]; exact hxk
  · rw [hd]
    simp only
    rw [hxk]
    exact keyOf_isEmpty (wellFormedKey_size hk)

/-! ## Round trip of the stored key -/

/-- The stored key built from valid non-empty objects is well formed. -/
theorem wellFormedKey_index_key_init {k : BSONObj} (hk : k.Valid) (hkne : k.isEmpty = false)
    (pk : Option BSONObj) (hpk : ∀ p, pk = some p → p.Valid ∧ p.isEmpty = false) :
    wellFormedKey (index_key_init k pk) = true
    ∧ (readInt32 (index_key_init k pk) < toInt32 (index_key_init k pk).length ↔ pk.isSome = true)
    ∧ ∀ p, pk = some p → pkOf (index_key_init k pk) = p := by
  have ek := BSONObj.getOwned_of_valid hk
  have lk := hk.length_lt
  obtain ⟨sk, k5, _⟩ := hk
  simp only [BSONObj.isEmpty, decide_eq_false_iff_not, not_le, BSONObj.objsize] at hkne sk
  cases pk with
  | none =>
    simp only [index_key_init, ek, List.append_nil, wellFormedKey, sk,
      toInt32_of_lt (show k.objdata.length < 2147483648 by omega)]
    simp
    omega
  | some p =>
    obtain ⟨hp, hpne⟩ := hpk p rfl
    have ep := BSONObj.getOwned_of_valid hp
    have lp := hp.length_lt
    obtain ⟨sp, p5, _⟩ := hp
    simp only [BSONObj.isEmpty, decide_eq_false_iff_not, not_le, BSONObj.objsize] at hpne sp
    have hab : readInt32 (k.objdata ++ p.objdata) = (k.objdata.length : Int) := by
      rw [readInt32_append _ (by omega), sk]
    have hdrop : List.drop k.objdata.length (k.objdata ++ p.objdata) = p.objdata := by simp
    refine ⟨?_, ?_, ?_⟩
    · simp only [index_key_init, ek, ep, wellFormedKey, hab, Int.toNat_ofNat, hdrop, sp,
        List.length_append,
        toInt32_of_lt (show k.objdata.length + p.objdata.length < 2147483648 by omega)]
      simp
      omega
    · simp only [index_key_init, ek, ep, hab, List.length_append,
        toInt32_of_lt (show k.objdata.length + p.objdata.length < 2147483648 by omega)]
      simp
      omega
    · intro q hq
      simp only [Option.some.injEq] at hq
      subst hq
      simp only [pkOf, index_key_init, ek, ep, BSONObj.objsize, hab, Int.toNat_ofNat, hdrop]

/-- C9. For valid non-empty objects `k` and `pk` and any well-formed stored
value, `cursor_getf` applied to the stored key built for `(k, pk)` (the bytes of
`k` followed by the bytes of `pk`) succeeds and sets the current key to `k` and
the primary key to `pk`; applied to the stored key built for `k` alone it
succeeds and sets both the current key and the primary key to `k`. -/
theorem cursor_getf_index_key_init (k pk : BSONObj) (val : DBT) (info : cursor_getf_extra)
    (hk : k.Valid) (hkne : k.isEmpty = false)
    (hpk : pk.Valid) (hpkne : pk.isEmpty = false) (hval : wellFormedVal val = true) :
    (∃ x, cursor_getf (index_key_init k (some pk)) val info = Except.ok x
        ∧ x.key = k ∧ x.pk = pk)
    ∧ (∃ x, cursor_getf (index_key_init k none) val info = Except.ok x
        ∧ x.key = k ∧ x.pk = k) := by
  constructor
  · obtain ⟨hw, hlt, hp⟩ := wellFormedKey_index_key_init hk hkne (some pk)
      (fun p h => by cases h; exact ⟨hpk, hpkne⟩)
    obtain ⟨x, hx, hxk, hxp⟩ := cursor_getf_wf hw hval info
    refine ⟨x, hx, by rw [hxk, keyOf_index_key_init hk], ?_⟩
    rw [hxp, if_pos (hlt.2 rfl)]
    exact hp pk rfl
  · obtain ⟨hw, hlt, _⟩ := wellFormedKey_index_key_init hk hkne none
      (fun p h => by cases h)
    obtain ⟨x, hx, hxk, hxp⟩ := cursor_getf_wf hw hval info
    refine ⟨x, hx, by rw [hxk, keyOf_index_key_init hk], ?_⟩
    have : ¬ (readInt32 (index_key_init k none) < toInt32 (index_key_init k none).length) := by
      intro h
      have := hlt.1 h
      cases this
    rw [hxp, if_neg this, keyOf_index_key_init hk]

/-- The key `{"": 5}` and the primary key `{_id: 1}`: the stored key of a
secondary index decodes to the two objects, that of the id index to the key
twice. -/
theorem cursor_getf_index_key_init_witness :
    (Example.key 5).Valid ∧ (Example.key 5).isEmpty = false
    ∧ (Example.pkey 1).Valid ∧ (Example.pkey 1).isEmpty = false
    ∧ wellFormedVal BSONObj.empty.objdata = true
    ∧ (∃ x, cursor_getf (index_key_init (Example.key 5) (some (Example.pkey 1)))
          BSONObj.empty.objdata ⟨BSONObj.empty, BSONObj.empty, BSONObj.empty⟩ = Except.ok x
        ∧ x.key = Example.key 5 ∧ x.pk = Example.pkey 1)
    ∧ (∃ x, cursor_getf (index_key_init (Example.key 5) none)
          BSONObj.empty.objdata ⟨BSONObj.empty, BSONObj.empty, BSONObj.empty⟩ = Except.ok x
        ∧ x.key = Example.key 5 ∧ x.pk = Example.key 5) :=
  ⟨by decide, by decide, by decide, by decide, by decide,
    cursor_getf_index_key_init (Example.key 5) (Example.pkey 1) BSONObj.empty.objdata
      ⟨BSONObj.empty, BSONObj.empty, BSONObj.empty⟩ (by decide) (by decide) (by decide)
      (by decide) (by decide)⟩

/-! ## One step of a scan over a simple range -/

theorem BSONObj.empty_isEmpty : BSONObj.empty.isEmpty = true := by decide

namespace IndexCursor

variable {σ : Type}

/-- The bounds check of a simple range. -/
theorem checkCurrentAgainstBounds_simple (ops : Ops) (it : BoundsIterator σ)
    (c : IndexCursor σ) (hind : c.independentFieldRanges = false)
    (hd : c.d_idx.isSome = true) :
    checkCurrentAgainstBounds ops it c = Except.ok
      (if c.currKey.isEmpty then (false, c)
       else if endOk ops c.endKey c.endKeyInclusive c.direction c.currKey then
         (true, { c with nscanned := c.nscanned + 1 })
       else (false, { c with currKey := BSONObj.empty })) := by
  simp only [checkCurrentAgainstBounds, hind, Bool.not_false, if_true, checkEnd]
  by_cases h1 : c.currKey.isEmpty = true
  · simp [h1, ok, bind, Except.bind, pure, Except.pure]
  · have h1f : c.currKey.isEmpty = false := by simpa using h1
    by_cases h2 : c.endKey.isEmpty = true
    · simp [h1f, h2, ok, endOk, bind, Except.bind, pure, Except.pure, hind]
    · have h2f : c.endKey.isEmpty = false := by simpa using h2
      by_cases h3 : (sgn (ops.woCompare c.endKey c.currKey) ≠ 0
            ∧ sgn (ops.woCompare c.endKey c.currKey) ≠ c.direction)
          ∨ (sgn (ops.woCompare c.endKey c.currKey) = 0 ∧ c.endKeyInclusive = false)
      · have h3b : (sgn (ops.woCompare c.endKey c.currKey) ≠ 0
              ∧ sgn (ops.woCompare c.endKey c.currKey) ≠ c.direction)
            ∨ (sgn (ops.woCompare c.endKey c.currKey) = 0 ∧ (!c.endKeyInclusive) = true) := by
          simpa using h3
        simp only [h1f, h2f, hd, verify, endOk, h3, h3b, Bool.false_eq_true, if_false,
          Bool.not_false, if_true, bind, Except.bind, pure, Except.pure, ok,
          BSONObj.empty_isEmpty, Bool.not_true, decide_True, Bool.false_or]
      · have h3b : ¬ ((sgn (ops.woCompare c.endKey c.currKey) ≠ 0
              ∧ sgn (ops.woCompare c.endKey c.currKey) ≠ c.direction)
            ∨ (sgn (ops.woCompare c.endKey c.currKey) = 0 ∧ (!c.endKeyInclusive) = true)) := by
          simpa using h3
        simp only [h1f, h2f, hd, verify, endOk, h3, h3b, Bool.false_eq_true, if_false,
          Bool.not_false, if_true, bind, Except.bind, pure, Except.pure, ok,
          decide_False, Bool.false_or]
        simp [hind]

end IndexCursor

/-- The raw cursor at a position of the dictionary moves to the nearest entry
ahead, if there is one. -/
theorem raw_step (d : Int) (db : Store) (i : Nat) (hi : i < db.length) :
    (if d > 0 then c_getf_next db ⟨some i⟩ else c_getf_prev db ⟨some i⟩)
      = (match remaining d db i with
        | [] => (DB_NOTFOUND, ⟨some i⟩, none)
        | e :: _ => (0, ⟨some (if d > 0 then i + 1 else i - 1)⟩, some e))
    ∧ (∀ e rest, remaining d db i = e :: rest →
        (if d > 0 then i + 1 else i - 1) < db.length
        ∧ db.get? (if d > 0 then i + 1 else i - 1) = some e
        ∧ remaining d db (if d > 0 then i + 1 else i - 1) = rest) := by
  by_cases hd : d > 0
  · simp only [hd, if_true, remaining, c_getf_next]
    by_cases h : i + 1 < db.length
    · rw [List.drop_eq_getElem_cons h]
      simp only [List.get?_eq_getElem?, List.getElem?_eq_getElem h, true_and]
      intro e rest he
      simp only [List.cons.injEq] at he
      exact ⟨h, by rw [he.1], he.2⟩
    · rw [List.drop_eq_nil_of_le (by omega)]
      simp only [List.get?_eq_getElem?, List.getElem?_eq_none (show db.length ≤ i + 1 by omega),
        true_and]
      intro e rest he
      cases he
  · simp only [hd, if_false, remaining, c_getf_prev]
    cases i with
    | zero =>
      simp only [List.take_zero, List.reverse_nil, true_and]
      intro e rest he
      cases he
    | succ j =>
      have hj : j < db.length := by omega
      have ht : (db.take (j + 1)).reverse = db[j] :: (db.take j).reverse := by
        rw [List.take_succ, List.getElem?_eq_getElem hj]
        simp
      rw [ht]
      simp only [List.get?_eq_getElem?, List.getElem?_eq_getElem hj, Nat.add_sub_cancel,
        true_and]
      intro e rest he
      simp only [List.cons.injEq] at he
      exact ⟨hj, by rw [he.1], he.2⟩

namespace IndexCursor

variable {σ : Type}

/-- The method `advance` on a positioned cursor over a simple range. -/
theorem advance_atEntry (ops : Ops) (it : BoundsIterator σ) (base : IndexCursor σ)
    (idx : IndexDetails) (hbase : base.d_idx = some idx)
    (hind : base.independentFieldRanges = false)
    (hwf : ∀ e ∈ idx.db, wellFormedKey e.1 = true ∧ wellFormedVal e.2 = true)
    (i : Nat) (e : DBT × DBT) (n : Int) (hi : i < idx.db.length)
    (he : e ∈ idx.db) :
    advance ops it false (base.atEntry i e n) = Except.ok
      (match remaining base.direction idx.db i with
       | [] => (false, (base.atEntry i e n).reset)
       | x :: _ =>
         if endOk ops base.endKey base.endKeyInclusive base.direction (keyOf x.1) then
           (true, base.atEntry (if base.direction > 0 then i + 1 else i - 1) x (n + 1))
         else
           (false, (base.atEntry (if base.direction > 0 then i + 1 else i - 1) x n).clearKey)) := by
  obtain ⟨_, _, hne⟩ := decodeEntry_wf (hwf e he).1 (hwf e he).2
  obtain ⟨hraw, hnext⟩ := raw_step base.direction idx.db i hi
  have hgetf : (if base.direction > 0 then
        getf (base.atEntry i e n).reset (c_getf_next idx.db ⟨some i⟩)
      else getf (base.atEntry i e n).reset (c_getf_prev idx.db ⟨some i⟩))
      = getf (base.atEntry i e n).reset
          (if base.direction > 0 then c_getf_next idx.db ⟨some i⟩
            else c_getf_prev idx.db ⟨some i⟩) := by
    split_ifs <;> rfl
  have hadv : advance ops it false (base.atEntry i e n)
      = (getf (base.atEntry i e n).reset
          (if base.direction > 0 then c_getf_next idx.db ⟨some i⟩
            else c_getf_prev idx.db ⟨some i⟩)) >>= checkCurrentAgainstBounds ops it := by
    rw [← hgetf]
    simp only [advance, atEntry, hne, hbase, Bool.false_eq_true, if_false]
    split_ifs <;> rfl
  rw [hadv, hraw]
  cases hrem : remaining base.direction idx.db i with
  | nil =>
    simp only [getf, pure, Except.pure, bind, Except.bind]
    rw [checkCurrentAgainstBounds_simple ops it]
    · simp [BSONObj.empty_isEmpty, atEntry, reset]
    · simpa [atEntry, reset] using hind
    · simp [atEntry, reset, hbase]
  | cons x rest =>
    obtain ⟨hi2, hget2, _⟩ := hnext x rest hrem
    have hx : x ∈ idx.db := List.get?_mem hget2
    obtain ⟨hdec, hkey, hne2⟩ := decodeEntry_wf (hwf x hx).1 (hwf x hx).2
    have hreset : (⟨(base.atEntry i e n).reset.currKey, (base.atEntry i e n).reset.currPK,
        (base.atEntry i e n).reset.currObj⟩ : cursor_getf_extra)
        = ⟨BSONObj.empty, BSONObj.empty, BSONObj.empty⟩ := rfl
    simp only [getf, hreset, hdec, pure, Except.pure, bind, Except.bind]
    rw [checkCurrentAgainstBounds_simple ops it]
    · have hne3 : (keyOf x.1).isEmpty = false := hkey ▸ hne2
      simp only [hne3, Bool.false_eq_true, if_false, hkey, atEntry, reset, clearKey]
    · simpa [atEntry, reset] using hind
    · simp [atEntry, reset, hbase]

/-- The scan from a positioned cursor over a simple range exposes the entry under
the cursor and then the entries ahead for as long as they pass the end check. -/
theorem collect_atEntry (ops : Ops) (it : BoundsIterator σ) (base : IndexCursor σ)
    (idx : IndexDetails) (hbase : base.d_idx = some idx)
    (hind : base.independentFieldRanges = false)
    (hwf : ∀ e ∈ idx.db, wellFormedKey e.1 = true ∧ wellFormedVal e.2 = true) :
    ∀ (rem : List (DBT × DBT)) (i : Nat) (e : DBT × DBT) (n : Int) (fuel : Nat),
      i < idx.db.length → e ∈ idx.db → remaining base.direction idx.db i = rem →
      rem.length < fuel →
      ∃ final, collect ops it fuel (base.atEntry i e n) = Except.ok
          (decodeEntry e :: (rem.takeWhile (fun x =>
              endOk ops base.endKey base.endKeyInclusive base.direction (keyOf x.1))).map
                decodeEntry, final)
        ∧ final.nscanned = n + ((rem.takeWhile (fun x =>
              endOk ops base.endKey base.endKeyInclusive base.direction (keyOf x.1))).length : Nat)
        ∧ final.ok = false := by
  intro rem
  induction rem with
  | nil =>
    intro i e n fuel hi he hrem hfuel
    obtain ⟨f, rfl⟩ : ∃ f, fuel = f + 1 := ⟨fuel - 1, by omega⟩
    obtain ⟨_, _, hne⟩ := decodeEntry_wf (hwf e he).1 (hwf e he).2
    have hok : (base.atEntry i e n).ok = true := by simp [ok, atEntry, hne]
    have hnok : (base.atEntry i e n).reset.ok = false := by
      simp [ok, reset, BSONObj.empty_isEmpty]
    have hcol : collect ops it f (base.atEntry i e n).reset
        = Except.ok ([], (base.atEntry i e n).reset) := by
      cases f with
      | zero => rfl
      | succ f => simp only [collect, hnok, Bool.false_eq_true, if_false]; rfl
    refine ⟨(base.atEntry i e n).reset, ?_, by simp [reset, atEntry], hnok⟩
    simp only [collect, hok, if_true, advance_atEntry ops it base idx hbase hind hwf i e n hi he,
      hrem, bind, Except.bind, hcol, pure, Except.pure, List.takeWhile_nil, List.map_nil]
    rfl
  | cons x rest ih =>
    intro i e n fuel hi he hrem hfuel
    obtain ⟨f, rfl⟩ : ∃ f, fuel = f + 1 := ⟨fuel - 1, by omega⟩
    obtain ⟨_, _, hne⟩ := decodeEntry_wf (hwf e he).1 (hwf e he).2
    have hok : (base.atEntry i e n).ok = true := by simp [ok, atEntry, hne]
    obtain ⟨hi2, hget2, hrem2⟩ := (raw_step base.direction idx.db i hi).2 x rest hrem
    have hx : x ∈ idx.db := List.get?_mem hget2
    by_cases hend : endOk ops base.endKey base.endKeyInclusive base.direction (keyOf x.1) = true
    · obtain ⟨final, hcol, hn, hfin⟩ := ih _ x (n + 1) f hi2 hx hrem2
        (by simp only [List.length_cons] at hfuel; omega)
      refine ⟨final, ?_, ?_, hfin⟩
      · simp only [collect, hok, if_true,
          advance_atEntry ops it base idx hbase hind hwf i e n hi he, hrem, hend, bind,
          Except.bind, hcol, pure, Except.pure, List.takeWhile_cons, List.map_cons]
        rfl
      · rw [hn]
        simp only [List.takeWhile_cons, hend, if_true, List.length_cons]
        push_cast
        omega
    · have hnok : (base.atEntry (if base.direction > 0 then i + 1 else i - 1) x n).clearKey.ok
          = false := by
        simp [ok, clearKey, BSONObj.empty_isEmpty]
      have hcol : collect ops it f
            (base.atEntry (if base.direction > 0 then i + 1 else i - 1) x n).clearKey
          = Except.ok ([],
            (base.atEntry (if base.direction > 0 then i + 1 else i - 1) x n).clearKey) := by
        cases f with
        | zero => rfl
        | succ f => simp only [collect, hnok, Bool.false_eq_true, if_false]; rfl
      refine ⟨_, ?_, ?_, hnok⟩
      · simp only [collect, hok, if_true,
          advance_atEntry ops it base idx hbase hind hwf i e n hi he, hrem, hend, bind,
          Except.bind, hcol, pure, Except.pure, List.takeWhile_cons, List.map_nil,
          Bool.false_eq_true, if_false]
        rfl
      · simp [hend, clearKey, atEntry]

end IndexCursor

/-! ## Ordered lists -/

theorem takeWhile_eq_filter_of_pairwise {α : Type} {R : α → α → Prop} {q : α → Bool}
    {l : List α} (hR : l.Pairwise R) (hq : ∀ a b, R a b → q b = true → q a = true) :
    l.takeWhile q = l.filter q := by
  induction l with
  | nil => rfl
  | cons a l ih =>
    rw [List.pairwise_cons] at hR
    rw [List.takeWhile_cons, List.filter_cons]
    cases hqa : q a with
    | true => simp only [if_true]; rw [ih hR.2]
    | false =>
      simp only [Bool.false_eq_true, if_false]
      symm
      rw [List.filter_eq_nil_iff]
      intro b hb hqb
      rw [hq a b (hR.1 b hb) hqb] at hqa
      cases hqa

theorem takeWhile_dropWhile_eq_filter {α : Type} {R : α → α → Prop} {p q : α → Bool}
    {l : List α} (hR : l.Pairwise R) (hp : ∀ a b, R a b → p a = true → p b = true)
    (hq : ∀ a b, R a b → q b = true → q a = true) :
    (l.dropWhile (fun a => !p a)).takeWhile q = l.filter (fun a => p a && q a) := by
  induction l with
  | nil => rfl
  | cons a l ih =>
    have hR2 := hR
    rw [List.pairwise_cons] at hR2
    rw [List.dropWhile_cons, List.filter_cons]
    cases hpa : p a with
    | false => simpa using ih hR2.2
    | true =>
      simp only [Bool.not_true, Bool.false_eq_true, if_false, Bool.true_and]
      rw [takeWhile_eq_filter_of_pairwise hR hq, List.filter_cons]
      have hl : l.filter q = l.filter (fun a => p a && q a) := by
        apply List.filter_congr
        intro b hb
        rw [hp a b (hR2.1 b hb) hpa, Bool.true_and]
      rw [hl]

/-- The entry that a search finds first and the entries behind it. -/
theorem findIdx_dropWhile {α : Type} (p : α → Bool) (l : List α) :
    (l.dropWhile (fun a => !p a) = [] → l.get? (l.findIdx p) = none)
    ∧ (∀ e rest, l.dropWhile (fun a => !p a) = e :: rest →
        l.findIdx p < l.length ∧ l.get? (l.findIdx p) = some e
          ∧ l.drop (l.findIdx p + 1) = rest) := by
  have hdrop : l.drop (l.findIdx p) = l.dropWhile (fun a => !p a) := by
    induction l with
    | nil => simp
    | cons a l ih =>
      rw [List.findIdx_cons, List.dropWhile_cons]
      cases h : p a with
      | true => simp
      | false => simpa using ih
  constructor
  · intro h
    rw [← hdrop] at h
    have : l.length ≤ l.findIdx p := by
      by_contra hlt
      rw [List.drop_eq_getElem_cons (by omega)] at h
      cases h
    simp [List.getElem?_eq_none this]
  · intro e rest h
    rw [← hdrop] at h
    have hlt : l.findIdx p < l.length := by
      by_contra hge
      rw [List.drop_eq_nil_of_le (by omega)] at h
      cases h
    rw [List.drop_eq_getElem_cons hlt] at h
    simp only [List.cons.injEq] at h
    exact ⟨hlt, by simp [List.getElem?_eq_getElem hlt, h.1], h.2⟩

theorem remaining_length_le (d : Int) (db : Store) (i : Nat) :
    (remaining d db i).length ≤ db.length := by
  unfold remaining
  split_ifs
  · simp
  · simp only [List.length_reverse, List.length_take]
    omega

/-! ## The order of the key pattern -/

theorem Ops.Lawful.le_of_not_lt {ops : Ops} (hl : ops.Lawful) {a b : BSONObj}
    (h : ¬ ops.woCompare a b < 0) : ops.woCompare b a ≤ 0 := by
  have := hl.wo_swap a b
  omega

theorem Ops.Lawful.lt_of_le_of_lt {ops : Ops} (hl : ops.Lawful) {a b c : BSONObj}
    (h1 : ops.woCompare a b ≤ 0) (h2 : ops.woCompare b c < 0) : ops.woCompare a c < 0 := by
  by_contra h
  have h3 := hl.wo_trans _ _ _ (hl.le_of_not_lt h) h1
  have := hl.wo_swap b c
  omega

theorem Ops.Lawful.lt_of_lt_of_le {ops : Ops} (hl : ops.Lawful) {a b c : BSONObj}
    (h1 : ops.woCompare a b < 0) (h2 : ops.woCompare b c ≤ 0) : ops.woCompare a c < 0 := by
  by_contra h
  have h3 := hl.wo_trans _ _ _ h2 (hl.le_of_not_lt h)
  have := hl.wo_swap a b
  omega

/-- The seek forward with a valid bare key stops at the first composite key that
is not below the key. -/
theorem Ops.Lawful.seek_forward_iff {ops : Ops} (hl : ops.Lawful) {k : BSONObj} (hk : k.Valid)
    (d : DBT) : decide (0 ≤ ops.dbtCompare d k.objdata) = decide (ops.woCompare k (keyOf d) ≤ 0) := by
  rw [ops.dbtCompare_bare d hk]
  have := hl.wo_swap (keyOf d) k
  have := hl.wo_swap k (keyOf d)
  congr 1
  apply propext
  constructor <;> intro h <;> split_ifs at * <;> omega

/-- The seek backward with a valid bare key stops at the last composite key that
is not above the key. -/
theorem Ops.seek_reverse_iff (ops : Ops) {k : BSONObj} (hk : k.Valid)
    (d : DBT) : decide (ops.dbtCompare d k.objdata ≤ 0) = decide (ops.woCompare (keyOf d) k ≤ 0) := by
  rw [ops.dbtCompare_bare d hk]
  congr 1
  apply propext
  constructor <;> intro h <;> split_ifs at * <;> omega

theorem IndexCursor.sgn_neg {i : Int} (h : i < 0) : IndexCursor.sgn i = -1 := by
  unfold IndexCursor.sgn
  split_ifs <;> omega

theorem IndexCursor.sgn_pos {i : Int} (h : 0 < i) : IndexCursor.sgn i = 1 := by
  unfold IndexCursor.sgn
  split_ifs <;> omega

theorem IndexCursor.sgn_zero : IndexCursor.sgn 0 = 0 := rfl

/-- The end check of a forward scan keeps the keys up to the end key. -/
theorem Ops.Lawful.endOk_forward {ops : Ops} (hl : ops.Lawful) {endKey : BSONObj}
    (hne : endKey.isEmpty = false) (incl : Bool) (k : BSONObj) :
    IndexCursor.endOk ops endKey incl 1 k
      = (if incl then decide (ops.woCompare k endKey ≤ 0)
          else decide (ops.woCompare k endKey < 0)) := by
  have h1 := hl.wo_swap k endKey
  have h2 := hl.wo_swap endKey k
  rcases lt_trichotomy (ops.woCompare endKey k) 0 with hc | hc | hc
  · have r1 : ¬ (ops.woCompare k endKey ≤ 0) := by omega
    have r2 : ¬ (ops.woCompare k endKey < 0) := by omega
    simp only [IndexCursor.endOk, hne, IndexCursor.sgn_neg hc, r1, r2]
    cases incl <;> decide
  · have r1 : ops.woCompare k endKey ≤ 0 := by omega
    have r2 : ¬ (ops.woCompare k endKey < 0) := by omega
    simp only [IndexCursor.endOk, hne, hc, IndexCursor.sgn_zero, r1, r2]
    cases incl <;> decide
  · have r1 : ops.woCompare k endKey ≤ 0 := by omega
    have r2 : ops.woCompare k endKey < 0 := by omega
    simp only [IndexCursor.endOk, hne, IndexCursor.sgn_pos hc, r1, r2]
    cases incl <;> decide

/-- The end check of a backward scan keeps the keys down to the end key. -/
theorem Ops.endOk_reverse (ops : Ops) {endKey : BSONObj}
    (hne : endKey.isEmpty = false) (incl : Bool) (k : BSONObj) :
    IndexCursor.endOk ops endKey incl (-1) k
      = (if incl then decide (ops.woCompare endKey k ≤ 0)
          else decide (ops.woCompare endKey k < 0)) := by
  rcases lt_trichotomy (ops.woCompare endKey k) 0 with hc | hc | hc
  · have r1 : ops.woCompare endKey k ≤ 0 := by omega
    simp only [IndexCursor.endOk, hne, IndexCursor.sgn_neg hc, r1, hc]
    cases incl <;> decide
  · simp only [IndexCursor.endOk, hne, hc, IndexCursor.sgn_zero]
    cases incl <;> decide
  · have r1 : ¬ (ops.woCompare endKey k ≤ 0) := by omega
    have r2 : ¬ (ops.woCompare endKey k < 0) := by omega
    simp only [IndexCursor.endOk, hne, IndexCursor.sgn_pos hc, r1, r2]
    cases incl <;> decide

/-! ## The scan of a simple range -/

namespace IndexCursor

variable {σ : Type}

/-- The scan of a freshly built simple-range cursor, given what the first seek
finds: the entries from the one found on, for as long as they pass the end
check. -/
theorem scan_of_seek (ops : Ops) (it : BoundsIterator σ) (base : IndexCursor σ)
    (idx : IndexDetails) (hbase : base.d_idx = some idx)
    (hind : base.independentFieldRanges = false)
    (hwf : ∀ e ∈ idx.db, wellFormedKey e.1 = true ∧ wellFormedVal e.2 = true)
    (hfresh : base.reset = base) (found : List (DBT × DBT)) (i0 : Nat)
    (hseek : (if base.direction > 0 then
          ops.c_getf_set_range idx.db ⟨none⟩ base.startKey.getOwned.objdata
        else ops.c_getf_set_range_reverse idx.db ⟨none⟩ base.startKey.getOwned.objdata)
      = (match found with
        | [] => (DB_NOTFOUND, ⟨none⟩, none)
        | e :: _ => (0, ⟨some i0⟩, some e)))
    (hfound : ∀ e rest, found = e :: rest →
      i0 < idx.db.length ∧ e ∈ idx.db ∧ remaining base.direction idx.db i0 = rest)
    (fuel : Nat) (hfuel : idx.db.length < fuel) :
    ∃ final, (initializeDBC ops it base >>= collect ops it fuel) = Except.ok
        ((found.takeWhile (fun x =>
            endOk ops base.endKey base.endKeyInclusive base.direction (keyOf x.1))).map
              decodeEntry, final)
      ∧ final.nscanned = base.nscanned + ((found.takeWhile (fun x =>
            endOk ops base.endKey base.endKeyInclusive base.direction (keyOf x.1))).length : Nat)
      ∧ final.ok = false := by
  have hk : base.currKey = BSONObj.empty := by rw [← hfresh]; rfl
  have hp : base.currPK = BSONObj.empty := by rw [← hfresh]; rfl
  have ho : base.currObj = BSONObj.empty := by rw [← hfresh]; rfl
  have hinit : initializeDBC ops it base
      = (getf base (if base.direction > 0 then
              ops.c_getf_set_range idx.db ⟨none⟩ base.startKey.getOwned.objdata
            else ops.c_getf_set_range_reverse idx.db ⟨none⟩ base.startKey.getOwned.objdata)
          >>= checkCurrentAgainstBounds ops it) >>= fun r => pure r.2 := by
    simp only [initializeDBC, hbase]
    split_ifs <;> simp only [bind_assoc]
  rw [hinit, hseek]
  have hcollect0 : ∀ c : IndexCursor σ, c.ok = false →
      collect ops it fuel c = Except.ok ([], c) := by
    intro c hc
    cases fuel with
    | zero => rfl
    | succ f => simp only [collect, hc, Bool.false_eq_true, if_false]; rfl
  cases found with
  | nil =>
    have hnok : ({ base with cursor := some ⟨none⟩ } : IndexCursor σ).ok = false := by
      simp [ok, hk, BSONObj.empty_isEmpty]
    refine ⟨{ base with cursor := some ⟨none⟩ }, ?_, by simp, hnok⟩
    simp only [getf, pure, Except.pure, bind, Except.bind]
    rw [checkCurrentAgainstBounds_simple ops it]
    · simp only [hk, BSONObj.empty_isEmpty, if_true]
      rw [hk] at hnok
      exact hcollect0 _ hnok
    · exact hind
    · simp [hbase]
  | cons e rest =>
    obtain ⟨hi0, he, hrem⟩ := hfound e rest rfl
    obtain ⟨hdec, hkey, hne⟩ := decodeEntry_wf (hwf e he).1 (hwf e he).2
    have hne3 : (keyOf e.1).isEmpty = false := hkey ▸ hne
    simp only [getf, hk, hp, ho, hdec, pure, Except.pure, bind, Except.bind]
    rw [checkCurrentAgainstBounds_simple ops it]
    · simp only [hkey, hne3, Bool.false_eq_true, if_false]
      by_cases hend : endOk ops base.endKey base.endKeyInclusive base.direction (keyOf e.1) = true
      · obtain ⟨final, hcol, hn, hfin⟩ := collect_atEntry ops it base idx hbase hind hwf rest i0 e
          (base.nscanned + 1) fuel hi0 he hrem (by
            have := remaining_length_le base.direction idx.db i0
            rw [hrem] at this
            omega)
        refine ⟨final, ?_, ?_, hfin⟩
        · simp only [hend, if_true, List.takeWhile_cons, List.map_cons]
          rw [← hcol]
          simp only [atEntry, hkey]
        · rw [hn]
          simp only [List.takeWhile_cons, hend, if_true, List.length_cons]
          push_cast
          omega
      · have hnok : (base.atEntry i0 e base.nscanned).clearKey.ok = false := by
          simp [ok, clearKey, BSONObj.empty_isEmpty]
        refine ⟨(base.atEntry i0 e base.nscanned).clearKey, ?_, ?_, hnok⟩
        · simp only [hend, Bool.false_eq_true, if_false, List.takeWhile_cons, List.map_nil]
          rw [← hcollect0 _ hnok]
          simp only [atEntry, clearKey, hkey]
        · simp [hend, clearKey, atEntry]
    · exact hind
    · simp [hbase]

end IndexCursor

/-- The first seek of a forward cursor. -/
theorem Ops.seek_forward (ops : Ops) (db : Store) (key : DBT) :
    ops.c_getf_set_range db ⟨none⟩ key
      = (match db.dropWhile (fun e => !decide (0 ≤ ops.dbtCompare e.1 key)) with
        | [] => (DB_NOTFOUND, ⟨none⟩, none)
        | e :: _ => (0, ⟨some (db.findIdx (fun e => decide (0 ≤ ops.dbtCompare e.1 key)))⟩,
            some e))
    ∧ (∀ e rest, db.dropWhile (fun e => !decide (0 ≤ ops.dbtCompare e.1 key)) = e :: rest →
        db.findIdx (fun e => decide (0 ≤ ops.dbtCompare e.1 key)) < db.length ∧ e ∈ db
        ∧ ∀ d : Int, d > 0 →
          remaining d db (db.findIdx (fun e => decide (0 ≤ ops.dbtCompare e.1 key))) = rest) := by
  obtain ⟨h1, h2⟩ := findIdx_dropWhile (fun e : DBT × DBT => decide (0 ≤ ops.dbtCompare e.1 key)) db
  constructor
  · unfold Ops.c_getf_set_range
    cases hd : db.dropWhile (fun e => !decide (0 ≤ ops.dbtCompare e.1 key)) with
    | nil => simp only [h1 hd]
    | cons e rest => simp only [(h2 e rest hd).2.1]
  · intro e rest hd
    obtain ⟨a, b, c⟩ := h2 e rest hd
    refine ⟨a, List.get?_mem b, ?_⟩
    intro d hdpos
    simp only [remaining, hdpos, if_true, c]

/-- The first seek of a backward cursor. -/
theorem Ops.seek_reverse (ops : Ops) (db : Store) (key : DBT) :
    ops.c_getf_set_range_reverse db ⟨none⟩ key
      = (match db.reverse.dropWhile (fun e => !decide (ops.dbtCompare e.1 key ≤ 0)) with
        | [] => (DB_NOTFOUND, ⟨none⟩, none)
        | e :: _ => (0, ⟨some (db.length - 1
            - db.reverse.findIdx (fun e => decide (ops.dbtCompare e.1 key ≤ 0)))⟩, some e))
    ∧ (∀ e rest,
        db.reverse.dropWhile (fun e => !decide (ops.dbtCompare e.1 key ≤ 0)) = e :: rest →
        db.length - 1 - db.reverse.findIdx (fun e => decide (ops.dbtCompare e.1 key ≤ 0))
          < db.length ∧ e ∈ db
        ∧ ∀ d : Int, ¬ d > 0 →
          remaining d db (db.length - 1
            - db.reverse.findIdx (fun e => decide (ops.dbtCompare e.1 key ≤ 0))) = rest) := by
  obtain ⟨h1, h2⟩ := findIdx_dropWhile
    (fun e : DBT × DBT => decide (ops.dbtCompare e.1 key ≤ 0)) db.reverse
  constructor
  · unfold Ops.c_getf_set_range_reverse
    cases hd : db.reverse.dropWhile (fun e => !decide (ops.dbtCompare e.1 key ≤ 0)) with
    | nil => simp only [h1 hd]
    | cons e rest => simp only [(h2 e rest hd).2.1]
  · intro e rest hd
    obtain ⟨a, b, c⟩ := h2 e rest hd
    rw [List.length_reverse] at a
    refine ⟨by omega, List.mem_reverse.1 (List.get?_mem b), ?_⟩
    intro d hdpos
    simp only [remaining, hdpos, if_false]
    rw [List.reverse_take, ← c]
    congr 1
    omega

namespace IndexCursor

variable {σ : Type}

theorem make_eq_fresh (ops : Ops) (it : BoundsIterator σ) (idx : IndexDetails)
    (startKey endKey : BSONObj) (endKeyInclusive : Bool) (direction : Int) :
    make ops it (some idx) startKey endKey endKeyInclusive direction
      = initializeDBC ops it
          (fresh idx (ops.fixed startKey) (ops.fixed endKey) endKeyInclusive direction) := by
  unfold make Ops.fixed fresh
  cases ops.fixKey <;> rfl

/-- A forward scan from `lo` to `hi` exposes the entries of the range in the
order of the dictionary. -/
theorem scan_forward (ops : Ops) (hl : ops.Lawful) (it : BoundsIterator σ)
    (idx : IndexDetails) (lo hi : BSONObj) (incl : Bool) (fuel : Nat)
    (hlo : lo.Valid) (hhi : hi.isEmpty = false)
    (hsorted : idx.db.Pairwise (fun a b => ops.woCompare (keyOf a.1) (keyOf b.1) ≤ 0))
    (hwf : ∀ e ∈ idx.db, wellFormedKey e.1 = true ∧ wellFormedVal e.2 = true)
    (hfuel : idx.db.length < fuel) :
    ∃ final : IndexCursor σ,
      (initializeDBC ops it (fresh idx lo hi incl 1) >>= collect ops it fuel) = Except.ok
        ((idx.db.filter (ops.inRange lo hi true incl)).map decodeEntry, final)
      ∧ final.nscanned = ((idx.db.filter (ops.inRange lo hi true incl)).length : Nat)
      ∧ final.ok = false := by
  obtain ⟨hseek, hfound⟩ := ops.seek_forward idx.db lo.objdata
  have hrange : (idx.db.dropWhile (fun e => !decide (0 ≤ ops.dbtCompare e.1 lo.objdata))).takeWhile
        (fun x => endOk ops hi incl 1 (keyOf x.1))
      = idx.db.filter (ops.inRange lo hi true incl) := by
    have hp : (fun e : DBT × DBT => !decide (0 ≤ ops.dbtCompare e.1 lo.objdata))
        = (fun e => !decide (ops.woCompare lo (keyOf e.1) ≤ 0)) := by
      funext e
      rw [hl.seek_forward_iff hlo]
    have hq : (fun x : DBT × DBT => endOk ops hi incl 1 (keyOf x.1))
        = (fun x => if incl then decide (ops.woCompare (keyOf x.1) hi ≤ 0)
            else decide (ops.woCompare (keyOf x.1) hi < 0)) := by
      funext x
      rw [hl.endOk_forward hhi]
    rw [hp, hq, takeWhile_dropWhile_eq_filter hsorted]
    · apply List.filter_congr
      intro x _
      simp [Ops.inRange]
    · intro a b hab ha
      simp only [decide_eq_true_eq] at ha ⊢
      exact hl.wo_trans _ _ _ ha hab
    · intro a b hab hb
      cases incl
      · simp only [Bool.false_eq_true, if_false, decide_eq_true_eq] at hb ⊢
        exact hl.lt_of_le_of_lt hab hb
      · simp only [if_true, decide_eq_true_eq] at hb ⊢
        exact hl.wo_trans _ _ _ hab hb
  have key := scan_of_seek ops it (fresh idx lo hi incl 1) idx rfl rfl hwf rfl
    (idx.db.dropWhile (fun e => !decide (0 ≤ ops.dbtCompare e.1 lo.objdata)))
    (idx.db.findIdx (fun e => decide (0 ≤ ops.dbtCompare e.1 lo.objdata)))
    (by
      have h1 : (fresh idx lo hi incl (1 : Int) : IndexCursor σ).direction > 0 := by
        show (1 : Int) > 0
        decide
      have h2 : (fresh idx lo hi incl (1 : Int) : IndexCursor σ).startKey.getOwned.objdata
          = lo.objdata := by
        simp only [fresh, BSONObj.getOwned_of_valid hlo]
      rw [if_pos h1, h2]
      exact hseek)
    (by
      intro e rest h
      obtain ⟨a, b, c⟩ := hfound e rest h
      exact ⟨a, b, c 1 (by decide)⟩)
    fuel hfuel
  obtain ⟨final, h1, h2, h3⟩ := key
  have hd : (fresh idx lo hi incl (1 : Int) : IndexCursor σ).direction = 1 := rfl
  have he : (fresh idx lo hi incl (1 : Int) : IndexCursor σ).endKey = hi := rfl
  have hi2 : (fresh idx lo hi incl (1 : Int) : IndexCursor σ).endKeyInclusive = incl := rfl
  have hn : (fresh idx lo hi incl (1 : Int) : IndexCursor σ).nscanned = 0 := rfl
  rw [hd, he, hi2, hrange] at h1 h2
  rw [hn] at h2
  exact ⟨final, h1, by rw [h2]; simp, h3⟩

/-- A backward scan from `hi` down to `lo` exposes the entries of the range in
the reverse of the order of the dictionary. -/
theorem scan_reverse (ops : Ops) (hl : ops.Lawful) (it : BoundsIterator σ)
    (idx : IndexDetails) (lo hi : BSONObj) (incl : Bool) (fuel : Nat)
    (hhi : hi.Valid) (hlo : lo.isEmpty = false)
    (hsorted : idx.db.Pairwise (fun a b => ops.woCompare (keyOf a.1) (keyOf b.1) ≤ 0))
    (hwf : ∀ e ∈ idx.db, wellFormedKey e.1 = true ∧ wellFormedVal e.2 = true)
    (hfuel : idx.db.length < fuel) :
    ∃ final : IndexCursor σ,
      (initializeDBC ops it (fresh idx hi lo incl (-1)) >>= collect ops it fuel) = Except.ok
        (((idx.db.filter (ops.inRange lo hi incl true)).map decodeEntry).reverse, final)
      ∧ final.nscanned = ((idx.db.filter (ops.inRange lo hi incl true)).length : Nat)
      ∧ final.ok = false := by
  obtain ⟨hseek, hfound⟩ := ops.seek_reverse idx.db hi.objdata
  have hrange : (idx.db.reverse.dropWhile
        (fun e => !decide (ops.dbtCompare e.1 hi.objdata ≤ 0))).takeWhile
        (fun x => endOk ops lo incl (-1) (keyOf x.1))
      = (idx.db.filter (ops.inRange lo hi incl true)).reverse := by
    have hp : (fun e : DBT × DBT => !decide (ops.dbtCompare e.1 hi.objdata ≤ 0))
        = (fun e => !decide (ops.woCompare (keyOf e.1) hi ≤ 0)) := by
      funext e
      rw [ops.seek_reverse_iff hhi]
    have hq : (fun x : DBT × DBT => endOk ops lo incl (-1) (keyOf x.1))
        = (fun x => if incl then decide (ops.woCompare lo (keyOf x.1) ≤ 0)
            else decide (ops.woCompare lo (keyOf x.1) < 0)) := by
      funext x
      rw [ops.endOk_reverse hlo]
    rw [hp, hq, takeWhile_dropWhile_eq_filter (List.pairwise_reverse.2 hsorted),
      List.filter_reverse]
    · congr 1
      apply List.filter_congr
      intro x _
      simp [Ops.inRange, Bool.and_comm]
    · intro a b hab ha
      simp only [decide_eq_true_eq] at ha ⊢
      exact hl.wo_trans _ _ _ hab ha
    · intro a b hab hb
      cases incl
      · simp only [Bool.false_eq_true, if_false, decide_eq_true_eq] at hb ⊢
        exact hl.lt_of_lt_of_le hb hab
      · simp only [if_true, decide_eq_true_eq] at hb ⊢
        exact hl.wo_trans _ _ _ hb hab
  have key := scan_of_seek ops it (fresh idx hi lo incl (-1)) idx rfl rfl hwf rfl
    (idx.db.reverse.dropWhile (fun e => !decide (ops.dbtCompare e.1 hi.objdata ≤ 0)))
    (idx.db.length - 1
      - idx.db.reverse.findIdx (fun e => decide (ops.dbtCompare e.1 hi.objdata ≤ 0)))
    (by
      have h1 : ¬ (fresh idx hi lo incl (-1 : Int) : IndexCursor σ).direction > 0 := by
        show ¬ ((-1 : Int) > 0)
        decide
      have h2 : (fresh idx hi lo incl (-1 : Int) : IndexCursor σ).startKey.getOwned.objdata
          = hi.objdata := by
        simp only [fresh, BSONObj.getOwned_of_valid hhi]
      rw [if_neg h1, h2]
      exact hseek)
    (by
      intro e rest h
      obtain ⟨a, b, c⟩ := hfound e rest h
      exact ⟨a, b, c (-1) (by decide)⟩)
    fuel hfuel
  obtain ⟨final, h1, h2, h3⟩ := key
  have hd : (fresh idx hi lo incl (-1 : Int) : IndexCursor σ).direction = -1 := rfl
  have he : (fresh idx hi lo incl (-1 : Int) : IndexCursor σ).endKey = lo := rfl
  have hi2 : (fresh idx hi lo incl (-1 : Int) : IndexCursor σ).endKeyInclusive = incl := rfl
  have hn : (fresh idx hi lo incl (-1 : Int) : IndexCursor σ).nscanned = 0 := rfl
  rw [hd, he, hi2, hrange] at h1 h2
  rw [hn] at h2
  exact ⟨final, by rw [h1, List.map_reverse], by rw [h2]; simp, h3⟩

end IndexCursor

/-! ## Scans of a simple range -/

/-- C6. For a forward (direction 1) simple-range cursor over a dictionary
ordered by composite key whose entries are well formed, with a valid start key
and a non-empty end key: reading the cursor after construction and after every
`advance()` until the cursor is exhausted (any bound above the number of entries
is enough calls) exposes exactly the stored entries whose composite key `k` has
`start ≤ k ≤ end` under the key pattern (`k < end` when the end is exclusive),
each once, in the order of the dictionary; the scan counter ends equal to the
number of entries exposed, and the cursor ends exhausted. -/
theorem forward_range_scan {σ : Type} (ops : Ops) (hl : ops.Lawful) (it : BoundsIterator σ)
    (idx : IndexDetails) (startKey endKey : BSONObj) (endKeyInclusive : Bool) (fuel : Nat)
    (hstart : (ops.fixed startKey).Valid) (hend : (ops.fixed endKey).isEmpty = false)
    (hsorted : idx.db.Pairwise (fun a b => ops.woCompare (keyOf a.1) (keyOf b.1) ≤ 0))
    (hwf : ∀ e ∈ idx.db, wellFormedKey e.1 = true ∧ wellFormedVal e.2 = true)
    (hfuel : idx.db.length < fuel) :
    ∃ final : IndexCursor σ,
      (IndexCursor.make ops it (some idx) startKey endKey endKeyInclusive 1
          >>= IndexCursor.collect ops it fuel) = Except.ok
        ((idx.db.filter (ops.inRange (ops.fixed startKey) (ops.fixed endKey) true
            endKeyInclusive)).map decodeEntry, final)
      ∧ final.nscanned = ((idx.db.filter (ops.inRange (ops.fixed startKey) (ops.fixed endKey)
            true endKeyInclusive)).length : Nat)
      ∧ final.ok = false := by
  rw [IndexCursor.make_eq_fresh]
  exact IndexCursor.scan_forward ops hl it idx _ _ endKeyInclusive fuel hstart hend hsorted hwf
    hfuel

/-- The index on `{a: 1}` with `a = 1, 2, 3` and `_id = 1, 2, 3`: the forward
cursor from `{a: 1}` to `{a: 3}`, end included, exposes the primary keys 1, 2, 3
and counts three entries. -/
theorem forward_range_scan_witness :
    (Example.ops.fixed (Example.key 1)).Valid
    ∧ (Example.ops.fixed (Example.key 3)).isEmpty = false
    ∧ ((Example.index123.db.filter (Example.ops.inRange (Example.ops.fixed (Example.key 1))
          (Example.ops.fixed (Example.key 3)) true true)).map decodeEntry).map (fun x => x.2.1)
        = [Example.pkey 1, Example.pkey 2, Example.pkey 3]
    ∧ ∃ final : IndexCursor Unit,
      (IndexCursor.make Example.ops (Example.constIterator 0) (some Example.index123)
          (Example.key 1) (Example.key 3) true 1
          >>= IndexCursor.collect Example.ops (Example.constIterator 0) 4) = Except.ok
        ((Example.index123.db.filter (Example.ops.inRange (Example.ops.fixed (Example.key 1))
            (Example.ops.fixed (Example.key 3)) true true)).map decodeEntry, final)
      ∧ final.nscanned = ((Example.index123.db.filter (Example.ops.inRange
            (Example.ops.fixed (Example.key 1)) (Example.ops.fixed (Example.key 3))
            true true)).length : Nat)
      ∧ final.ok = false :=
  ⟨by decide, by decide, by decide,
    forward_range_scan Example.ops Example.ops_lawful (Example.constIterator 0)
      Example.index123 (Example.key 1) (Example.key 3) true 4 (by decide) (by decide)
      (by decide) (by decide) (by decide)⟩

/-- C7 (amended). A backward cursor starts at its start key and stops at its end
key: over a dictionary ordered by composite key, the direction -1 cursor built
with start key `hi` and end key `lo` exposes the entries with `lo ≤ k ≤ hi`
(`lo < k` when the end is exclusive) in the reverse of the order of the
dictionary; when the end is inclusive this is the exact reverse of what the
direction 1 cursor built with start key `lo` and end key `hi` exposes. -/
theorem reverse_range_scan {σ : Type} (ops : Ops) (hl : ops.Lawful) (it : BoundsIterator σ)
    (idx : IndexDetails) (lo hi : BSONObj) (endKeyInclusive : Bool) (fuel : Nat)
    (hlo : (ops.fixed lo).Valid) (hlone : (ops.fixed lo).isEmpty = false)
    (hhi : (ops.fixed hi).Valid) (hhine : (ops.fixed hi).isEmpty = false)
    (hsorted : idx.db.Pairwise (fun a b => ops.woCompare (keyOf a.1) (keyOf b.1) ≤ 0))
    (hwf : ∀ e ∈ idx.db, wellFormedKey e.1 = true ∧ wellFormedVal e.2 = true)
    (hfuel : idx.db.length < fuel) :
    (∃ final : IndexCursor σ,
      (IndexCursor.make ops it (some idx) hi lo endKeyInclusive (-1)
          >>= IndexCursor.collect ops it fuel) = Except.ok
        (((idx.db.filter (ops.inRange (ops.fixed lo) (ops.fixed hi) endKeyInclusive
            true)).map decodeEntry).reverse, final)
      ∧ final.nscanned = ((idx.db.filter (ops.inRange (ops.fixed lo) (ops.fixed hi)
            endKeyInclusive true)).length : Nat)
      ∧ final.ok = false)
    ∧ (endKeyInclusive = true →
        ∃ (l : List (BSONObj × BSONObj × BSONObj)) (finalF finalR : IndexCursor σ),
          (IndexCursor.make ops it (some idx) lo hi endKeyInclusive 1
              >>= IndexCursor.collect ops it fuel) = Except.ok (l, finalF)
          ∧ (IndexCursor.make ops it (some idx) hi lo endKeyInclusive (-1)
              >>= IndexCursor.collect ops it fuel) = Except.ok (l.reverse, finalR)) := by
  have hrev := IndexCursor.scan_reverse ops hl it idx (ops.fixed lo) (ops.fixed hi)
    endKeyInclusive fuel hhi hlone hsorted hwf hfuel
  refine ⟨by rw [IndexCursor.make_eq_fresh]; exact hrev, ?_⟩
  intro hincl
  subst hincl
  obtain ⟨finalF, hF, _, _⟩ := IndexCursor.scan_forward ops hl it idx (ops.fixed lo)
    (ops.fixed hi) true fuel hlo hhine hsorted hwf hfuel
  obtain ⟨finalR, hR, _, _⟩ := hrev
  exact ⟨_, finalF, finalR, by rw [IndexCursor.make_eq_fresh]; exact hF,
    by rw [IndexCursor.make_eq_fresh]; exact hR⟩

/-- The index on `{a: 1}` with `a = 1, 2, 3`: the backward cursor with start key
`{a: 3}` and end key `{a: 1}`, end included, exposes the primary keys 3, 2, 1. -/
theorem reverse_range_scan_witness :
    (Example.ops.fixed (Example.key 1)).Valid
    ∧ (Example.ops.fixed (Example.key 3)).Valid
    ∧ (((Example.index123.db.filter (Example.ops.inRange (Example.ops.fixed (Example.key 1))
          (Example.ops.fixed (Example.key 3)) true true)).map decodeEntry).reverse).map
            (fun x => x.2.1)
        = [Example.pkey 3, Example.pkey 2, Example.pkey 1]
    ∧ ∃ final : IndexCursor Unit,
      (IndexCursor.make Example.ops (Example.constIterator 0) (some Example.index123)
          (Example.key 3) (Example.key 1) true (-1)
          >>= IndexCursor.collect Example.ops (Example.constIterator 0) 4) = Except.ok
        (((Example.index123.db.filter (Example.ops.inRange (Example.ops.fixed (Example.key 1))
            (Example.ops.fixed (Example.key 3)) true true)).map decodeEntry).reverse, final)
      ∧ final.nscanned = ((Example.index123.db.filter (Example.ops.inRange
            (Example.ops.fixed (Example.key 1)) (Example.ops.fixed (Example.key 3))
            true true)).length : Nat)
      ∧ final.ok = false :=
  ⟨by decide, by decide, by decide,
    (reverse_range_scan Example.ops Example.ops_lawful (Example.constIterator 0)
      Example.index123 (Example.key 1) (Example.key 3) true 4 (by decide) (by decide)
      (by decide) (by decide) (by decide) (by decide) (by decide)).1⟩

/-- C7, as stated, fails: over the index with `a = 1, 2, 3`, with the same start
key `{a: 1}`, end key `{a: 3}` and inclusive end, the direction 1 cursor exposes
the primary keys 1, 2, 3 and the direction -1 cursor exposes nothing. -/
theorem reverse_same_bounds_exposes_nothing :
    ((IndexCursor.make Example.ops (Example.constIterator 0) (some Example.index123)
          (Example.key 1) (Example.key 3) true 1
        >>= IndexCursor.collect Example.ops (Example.constIterator 0) 4).toOption.map
          (fun r => r.1.map (fun x => x.2.1)))
      = some [Example.pkey 1, Example.pkey 2, Example.pkey 3]
    ∧ ((IndexCursor.make Example.ops (Example.constIterator 0) (some Example.index123)
          (Example.key 1) (Example.key 3) true (-1)
        >>= IndexCursor.collect Example.ops (Example.constIterator 0) 4).toOption.map
          (fun r => r.1.map (fun x => x.2.1)))
      = some [] := by
  constructor <;> decide

/-! ## The bounds check of a field range vector, on an instance -/

/-- A cursor over the index with `a = 1, 2, 3` whose iterator finds the first key
in range: the check returns true after one verdict. -/
theorem checkCurrentAgainstBounds_positioned_witness :
    Example.boundsCursor.independentFieldRanges = true
    ∧ Example.boundsCursor.boundsIterator = some ()
    ∧ ({ Example.boundsCursor with nscanned := 1 } : IndexCursor Unit).currKey
        = Example.boundsCursor.currKey
    ∧ ∃ n : Nat, n ≤ 20
      ∧ ({ Example.boundsCursor with nscanned := 1 } : IndexCursor Unit).nscanned
          = Example.boundsCursor.nscanned + ((n : Int) + 1)
      ∧ ({ Example.boundsCursor with nscanned := 1 } : IndexCursor Unit).boundsIterator
          = some ((Example.constIterator (-1)).stateAfter () Example.boundsCursor.currKey (n + 1))
      ∧ (∀ i < n, (Example.constIterator (-1)).verdict () Example.boundsCursor.currKey i ≠ -1
          ∧ (Example.constIterator (-1)).verdict () Example.boundsCursor.currKey i ≠ -2)
      ∧ ((Example.constIterator (-1)).verdict () Example.boundsCursor.currKey n = -1
        ∨ (n = 20
          ∧ (Example.constIterator (-1)).verdict () Example.boundsCursor.currKey 20 ≠ -1
          ∧ (Example.constIterator (-1)).verdict () Example.boundsCursor.currKey 20 ≠ -2)) :=
  ⟨rfl, rfl,
    checkCurrentAgainstBounds_positioned Example.ops (Example.constIterator (-1))
      Example.boundsCursor { Example.boundsCursor with nscanned := 1 } () rfl rfl rfl⟩

/-- C8, as stated, fails: with an iterator that draws a skip verdict for every
key, the construction of a cursor over the index with `a = 1, 2, 3` leaves the
cursor positioned on the first key after 21 verdicts, none of them in range. -/
theorem makeBounds_exposes_skipped_key :
    (Example.constIterator 0).advance () (Example.key 1) = (0, ())
    ∧ ((IndexCursor.makeBounds Example.ops (Example.constIterator 0) (some Example.index123)
          () (Example.key 1) 1).toOption.map (fun c => (c.ok, c.currKey, c.nscanned)))
        = some (true, Example.key 1, 21) := by
  constructor
  · rfl
  · decide

/-! ## A collision found by put -/

theorem Ops.insertLoop_cons (ops : Ops) (obj pk ki : BSONObj) (overwrite : Bool)
    (rest : List BSONObj) (idx : IndexDetails) :
    ops.insertLoop obj pk overwrite (ki :: rest) idx
      = (match ops.insertPair idx ki (if !idx.isIdIndex then some pk else none)
            (if idx.isIdIndex || idx.clustering then obj else BSONObj.empty) overwrite with
        | (idx, none) => ops.insertLoop obj pk overwrite rest idx
        | (idx, some f) => (idx, some f)) := by
  conv_lhs => unfold Ops.insertLoop
  cases idx.isIdIndex <;> cases idx.clustering <;> rfl

/-- The loop over a list of keys whose first part is inserted without failure
goes on with the rest from the index that part left. -/
theorem Ops.insertLoop_append (ops : Ops) (obj pk : BSONObj) (overwrite : Bool)
    (pre rest : List BSONObj) :
    ∀ {idx idx1 : IndexDetails}, ops.insertLoop obj pk overwrite pre idx = (idx1, none) →
      ops.insertLoop obj pk overwrite (pre ++ rest) idx
        = ops.insertLoop obj pk overwrite rest idx1 := by
  induction pre with
  | nil =>
    intro idx idx1 h
    simp only [Ops.insertLoop, Prod.mk.injEq, and_true] at h
    rw [List.nil_append, h]
  | cons ki pre ih =>
    intro idx idx1 h
    obtain ⟨idx2, hpair, hrest⟩ := ops.insertLoop_step h
    rw [List.cons_append, ops.insertLoop_cons, hpair]
    exact ih hrest

/-- Without an operation of another transaction between the check and the `put`,
the shared `insertPair` is `insertPair`. -/
theorem Ops.insertPairRacing_nil (ops : Ops) (idx : IndexDetails) (key : BSONObj)
    (pk : Option BSONObj) (val : BSONObj) (overwrite : Bool) :
    ops.insertPairRacing [] idx key pk val overwrite = ops.insertPair idx key pk val overwrite :=
  rfl

theorem Ops.insertLoopRacing_nil (ops : Ops) (obj pk : BSONObj) (overwrite : Bool)
    (keys : List BSONObj) :
    ∀ idx : IndexDetails, ops.insertLoopRacing (fun _ => []) obj pk overwrite keys idx
      = ops.insertLoop obj pk overwrite keys idx := by
  induction keys with
  | nil => intro idx; rfl
  | cons ki rest ih =>
    intro idx
    unfold Ops.insertLoopRacing Ops.insertLoop
    simp only [ops.insertPairRacing_nil, ih]

/-- Without operations of other transactions, the shared `insert` is `insert`. -/
theorem Ops.insertRacing_nil (ops : Ops) (idx : IndexDetails) (obj pk : BSONObj)
    (overwrite : Bool) :
    ops.insertRacing (fun _ => []) idx obj pk overwrite = ops.insert idx obj pk overwrite := by
  unfold Ops.insertRacing Ops.insert
  simp only [ops.insertLoopRacing_nil]

namespace IndexCursor

variable {σ : Type}

theorem bind_ok_elim {α β : Type} {x : Except Failure α} {f : α → Except Failure β} {b : β}
    (h : (x >>= f) = Except.ok b) : ∃ a, x = Except.ok a ∧ f a = Except.ok b := by
  cases x with
  | error e => cases h
  | ok a => exact ⟨a, rfl, h⟩

/-- The bounds check returns `ok()` of the cursor it leaves. -/
theorem checkCurrentAgainstBounds_fst (ops : Ops) (it : BoundsIterator σ)
    {c c1 : IndexCursor σ} {more : Bool}
    (h : checkCurrentAgainstBounds ops it c = Except.ok (more, c1)) : more = c1.ok := by
  cases hind : c.independentFieldRanges with
  | false =>
    simp only [checkCurrentAgainstBounds, hind, Bool.not_false, if_true] at h
    cases hce : checkEnd ops c with
    | error f => simp [hce, bind, Except.bind] at h
    | ok v =>
      simp only [hce, bind, Except.bind, pure, Except.pure] at h
      split_ifs at h <;>
        (simp only [Except.ok.injEq, Prod.mk.injEq] at h
         rw [← h.1, ← h.2])
  | true =>
    rw [checkCurrentAgainstBounds_bounds ops it c hind] at h
    obtain ⟨r, _, h2⟩ := bind_ok_elim h
    obtain ⟨v, _, hv⟩ := bind_ok_elim h2
    simp only [pure, Except.pure, Except.ok.injEq, Prod.mk.injEq] at hv
    rw [← hv.1, hv.2]

/-- The method `advance` returns `ok()` of the cursor it leaves. -/
theorem advance_fst (ops : Ops) (it : BoundsIterator σ) {c c1 : IndexCursor σ} {more : Bool}
    (h : advance ops it false c = Except.ok (more, c1)) : more = c1.ok := by
  unfold advance at h
  simp only [Bool.false_eq_true, if_false] at h
  by_cases hk : c.currKey.isEmpty = true
  · simp only [hk, if_true, pure, Except.pure, Except.ok.injEq, Prod.mk.injEq] at h
    rw [← h.1, ← h.2]
    simp [ok, hk]
  · simp only [hk, if_false] at h
    cases hd : c.d_idx with
    | none => simp only [hd] at h; cases h
    | some idx =>
      cases hc : c.cursor with
      | none => simp only [hd, hc] at h; cases h
      | some dbc =>
        simp only [hd, hc, Bool.false_eq_true, if_false] at h
        by_cases hdir : c.direction > 0
        · simp only [hdir, if_true] at h
          obtain ⟨v, _, hv⟩ := bind_ok_elim h
          exact checkCurrentAgainstBounds_fst ops it hv
        · simp only [hdir, if_false] at h
          obtain ⟨v, _, hv⟩ := bind_ok_elim h
          exact checkCurrentAgainstBounds_fst ops it hv

end IndexCursor

/-- C12. Exhausted is terminal: on a cursor whose current key is empty, in
either mode and either direction, `advance()` without an interrupt returns false
and leaves the whole cursor as it was (current key, primary key, document, scan
counter, raw cursor), and so does any number of calls in a row; and `advance()`
returns false exactly when it leaves the current key empty. -/
theorem advance_exhausted_terminal {σ : Type} (ops : Ops) (it : BoundsIterator σ) :
    (∀ c : IndexCursor σ, c.currKey.isEmpty = true →
        IndexCursor.advance ops it false c = Except.ok (false, c)
        ∧ ∀ n : Nat, IndexCursor.advanceTimes ops it n c = Except.ok c)
    ∧ (∀ (c c1 : IndexCursor σ) (more : Bool),
        IndexCursor.advance ops it false c = Except.ok (more, c1) →
        (more = false ↔ c1.currKey.isEmpty = true)) := by
  have h1 : ∀ c : IndexCursor σ, c.currKey.isEmpty = true →
      IndexCursor.advance ops it false c = Except.ok (false, c) := by
    intro c h
    simp [IndexCursor.advance, h, pure, Except.pure]
  refine ⟨fun c h => ⟨h1 c h, ?_⟩, ?_⟩
  · intro n
    induction n with
    | zero => rfl
    | succ n ih =>
      simp only [IndexCursor.advanceTimes, h1 c h, bind, Except.bind]
      exact ih
  · intro c c1 more h
    rw [IndexCursor.advance_fst ops it h]
    simp [IndexCursor.ok]

/-- The backward cursor over the index with `a = 1, 2, 3` built with start key
`{a: 1}` and end key `{a: 3}` is exhausted by its construction: `advance()` returns
false and changes nothing, once and three times in a row. -/
theorem advance_exhausted_terminal_witness :
    ∃ c : IndexCursor Unit,
      IndexCursor.make Example.ops (Example.constIterator 0) (some Example.index123)
          (Example.key 1) (Example.key 3) true (-1) = Except.ok c
      ∧ c.currKey.isEmpty = true
      ∧ IndexCursor.advance Example.ops (Example.constIterator 0) false c = Except.ok (false, c)
      ∧ IndexCursor.advanceTimes Example.ops (Example.constIterator 0) 3 c = Except.ok c :=
  ⟨((IndexCursor.fresh Example.index123 (Example.key 1) (Example.key 3) true (-1)).atEntry 0
      (index_key_init (Example.key 1) (some (Example.pkey 1)), BSONObj.empty.objdata) 0).clearKey,
    by rfl, by decide,
    ((advance_exhausted_terminal Example.ops (Example.constIterator 0)).1 _ (by decide)).1,
    ((advance_exhausted_terminal Example.ops (Example.constIterator 0)).1 _ (by decide)).2 3⟩

/-! ## A cursor with a current key has an index -/

namespace IndexCursor

variable {σ : Type}

theorem checkEnd_d_idx (ops : Ops) {c c1 : IndexCursor σ}
    (h : checkEnd ops c = Except.ok c1) : c1.d_idx = c.d_idx := by
  unfold checkEnd at h
  by_cases hk : c.currKey.isEmpty = true
  · simp only [hk, if_true, pure, Except.pure, Except.ok.injEq] at h
    rw [← h]
  · simp only [hk, Bool.false_eq_true, if_false] at h
    by_cases he : c.endKey.isEmpty = true
    · simp only [he, Bool.not_true, Bool.false_eq_true, if_false, pure, Except.pure,
        Except.ok.injEq] at h
      rw [← h]
    · simp only [he, Bool.not_false, if_true] at h
      obtain ⟨_, _, h2⟩ := bind_ok_elim h
      split_ifs at h2 <;>
        (simp only [pure, Except.pure, Except.ok.injEq] at h2
         rw [← h2])

theorem skipOutOfRangeKeysAndCheckEnd_d_idx (it : BoundsIterator σ) {c c1 : IndexCursor σ}
    {again : Bool} (h : skipOutOfRangeKeysAndCheckEnd it c = Except.ok (again, c1)) :
    c1.d_idx = c.d_idx := by
  by_cases hok : c.ok = true
  · cases hb : c.boundsIterator with
    | none =>
      simp [skipOutOfRangeKeysAndCheckEnd, hok, hb, throw, throwThe, MonadExceptOf.throw] at h
    | some b =>
      rw [skipOutOfRangeKeysAndCheckEnd_eq it c b hok hb] at h
      split_ifs at h <;>
        (simp only [Except.ok.injEq, Prod.mk.injEq] at h
         rw [← h.2])
  · simp only [skipOutOfRangeKeysAndCheckEnd, hok, Bool.not_false, if_true, pure, Except.pure,
      Except.ok.injEq, Prod.mk.injEq, Bool.false_eq_true] at h
    simp at hok
    simp [skipOutOfRangeKeysAndCheckEnd, hok, pure, Except.pure] at h
    rw [← h.2]

theorem skipLoop_d_idx (it : BoundsIterator σ) (start : Int) :
    ∀ (n : Nat) (c c1 : IndexCursor σ), skipLoop it start n c = Except.ok c1 →
      c1.d_idx = c.d_idx := by
  intro n
  induction n with
  | zero =>
    intro c c1 h
    simp only [skipLoop, pure, Except.pure, Except.ok.injEq] at h
    rw [← h]
  | succ n ih =>
    intro c c1 h
    unfold skipLoop at h
    by_cases hgt : c.nscanned > start + 20
    · simp only [hgt, if_true, pure, Except.pure, Except.ok.injEq] at h
      rw [← h]
    · simp only [hgt, if_false] at h
      cases hs : skipOutOfRangeKeysAndCheckEnd it c with
      | error f => simp [hs, bind, Except.bind] at h
      | ok r =>
        obtain ⟨again, c2⟩ := r
        have h2 := skipOutOfRangeKeysAndCheckEnd_d_idx it hs
        simp only [hs, bind, Except.bind] at h
        cases again with
        | true =>
          simp only [if_true] at h
          rw [ih c2 c1 h, h2]
        | false =>
          simp only [Bool.false_eq_true, if_false, pure, Except.pure, Except.ok.injEq] at h
          rw [← h, h2]

theorem checkCurrentAgainstBounds_d_idx (ops : Ops) (it : BoundsIterator σ)
    {c c1 : IndexCursor σ} {more : Bool}
    (h : checkCurrentAgainstBounds ops it c = Except.ok (more, c1)) : c1.d_idx = c.d_idx := by
  cases hind : c.independentFieldRanges with
  | false =>
    simp only [checkCurrentAgainstBounds, hind, Bool.not_false, if_true] at h
    cases hce : checkEnd ops c with
    | error f => simp [hce, bind, Except.bind] at h
    | ok v =>
      have hv := checkEnd_d_idx ops hce
      simp only [hce, bind, Except.bind, pure, Except.pure] at h
      split_ifs at h <;>
        (simp only [Except.ok.injEq, Prod.mk.injEq] at h
         rw [← h.2]
         exact hv)
  | true =>
    rw [checkCurrentAgainstBounds_bounds ops it c hind] at h
    obtain ⟨r, hr, h2⟩ := bind_ok_elim h
    obtain ⟨v, hv1, hv⟩ := bind_ok_elim h2
    simp only [pure, Except.pure, Except.ok.injEq, Prod.mk.injEq] at hv
    obtain ⟨again, c2⟩ := r
    have hc2 := skipOutOfRangeKeysAndCheckEnd_d_idx it hr
    rw [← hv.2]
    cases again with
    | true =>
      simp only [Bool.not_true, Bool.false_eq_true, if_false] at hv1
      rw [skipLoop_d_idx it _ _ _ _ hv1, hc2]
    | false =>
      simp only [Bool.not_false, if_true, pure, Except.pure, Except.ok.injEq] at hv1
      rw [← hv1, hc2]

theorem getf_d_idx {c c1 : IndexCursor σ} {r : Int × DBC × Option (DBT × DBT)}
    (h : getf c r = Except.ok c1) : c1.d_idx = c.d_idx := by
  obtain ⟨x, dbc, e⟩ := r
  cases e with
  | none =>
    simp only [getf, pure, Except.pure, Except.ok.injEq] at h
    rw [← h]
  | some kv =>
    obtain ⟨key, val⟩ := kv
    simp only [getf] at h
    obtain ⟨extra, _, h2⟩ := bind_ok_elim h
    simp only [pure, Except.pure, Except.ok.injEq] at h2
    rw [← h2]

theorem initializeDBC_indexed (ops : Ops) (it : BoundsIterator σ) {c c1 : IndexCursor σ}
    (hk : c.currKey.isEmpty = true) (h : initializeDBC ops it c = Except.ok c1) :
    c1.currKey.isEmpty = false → c1.d_idx.isSome = true := by
  cases hd : c.d_idx with
  | none =>
    simp only [initializeDBC, hd, pure, Except.pure, Except.ok.injEq] at h
    rw [← h, hk]
    intro hne
    cases hne
  | some idx =>
    intro _
    simp only [initializeDBC, hd] at h
    have key : ∀ r, (getf c r >>= fun y => checkCurrentAgainstBounds ops it y >>= fun d =>
        pure d.2) = Except.ok c1 → c1.d_idx.isSome = true := by
      intro r hr
      obtain ⟨c2, hc2, h3⟩ := bind_ok_elim hr
      obtain ⟨d, hd2, h4⟩ := bind_ok_elim h3
      obtain ⟨more, c3⟩ := d
      simp only [pure, Except.pure, Except.ok.injEq] at h4
      rw [← h4, checkCurrentAgainstBounds_d_idx ops it hd2, getf_d_idx hc2, hd]
      rfl
    split_ifs at h
    · exact key _ h
    · exact key _ h

/-- A cursor that a caller can hold has an index whenever it has a current key:
`verify( _idx != NULL )` in `checkEnd` and `advance` never fires on it. -/
theorem Reachable.indexed (ops : Ops) (it : BoundsIterator σ) {c : IndexCursor σ}
    (hr : Reachable ops it c) : c.currKey.isEmpty = false → c.d_idx.isSome = true := by
  induction hr with
  | make d_idx startKey endKey endKeyInclusive direction c h =>
    unfold IndexCursor.make at h
    refine initializeDBC_indexed ops it ?_ h
    exact BSONObj.empty_isEmpty
  | makeBounds d_idx bounds boundsStartKey direction c h =>
    unfold IndexCursor.makeBounds at h
    refine initializeDBC_indexed ops it ?_ h
    exact BSONObj.empty_isEmpty
  | advance c c1 more _ h ih =>
    unfold IndexCursor.advance at h
    simp only [Bool.false_eq_true, if_false] at h
    by_cases hk : c.currKey.isEmpty = true
    · simp only [hk, if_true, pure, Except.pure, Except.ok.injEq, Prod.mk.injEq] at h
      rw [← h.2]
      exact ih
    · intro _
      simp only [hk, if_false] at h
      cases hd : c.d_idx with
      | none => simp only [hd] at h; cases h
      | some idx =>
        cases hc : c.cursor with
        | none => simp only [hd, hc] at h; cases h
        | some dbc =>
          simp only [hd, hc, Bool.false_eq_true, if_false] at h
          have key : ∀ (c0 : IndexCursor σ) r, c0.d_idx = some idx →
              (getf c0 r >>= fun y => checkCurrentAgainstBounds ops it y)
                = Except.ok (more, c1) → c1.d_idx.isSome = true := by
            intro c0 r h0 hr
            obtain ⟨v, hv1, hv⟩ := bind_ok_elim hr
            rw [checkCurrentAgainstBounds_d_idx ops it hv, getf_d_idx hv1, h0]
            rfl
          split_ifs at h
          · exact key _ _ rfl h
          · exact key _ _ rfl h

end IndexCursor

/-! ## The end check -/

/-- C13. For every direction `d`, on a cursor over an existing index (the only
cursors with a current key) with a non-empty current key `c` and a non-empty end
key `e`, with `s = sgn (compare e c)` under the key pattern: `checkEnd` clears the
current key when `(s ≠ 0 and s ≠ d)` or `(s = 0` and the end is exclusive`)` and
leaves the cursor unchanged otherwise, so the current key is empty afterwards
exactly in that case; with `d = 1` the case is `e` below `c`, or equal to it with
an exclusive end, with `d = -1` it is `e` above `c`, or equal to it with an
exclusive end.  When the current key is empty already, or the end key is empty
(no end key set), `checkEnd` changes nothing. -/
theorem checkEnd_clears_iff {σ : Type} (ops : Ops) (c : IndexCursor σ) :
    (c.currKey.isEmpty = false → c.endKey.isEmpty = false → c.d_idx.isSome = true →
      (((IndexCursor.sgn (ops.woCompare c.endKey c.currKey) ≠ 0
            ∧ IndexCursor.sgn (ops.woCompare c.endKey c.currKey) ≠ c.direction)
          ∨ (IndexCursor.sgn (ops.woCompare c.endKey c.currKey) = 0
            ∧ c.endKeyInclusive = false)) →
        IndexCursor.checkEnd ops c = Except.ok c.clearKey)
      ∧ (¬ ((IndexCursor.sgn (ops.woCompare c.endKey c.currKey) ≠ 0
            ∧ IndexCursor.sgn (ops.woCompare c.endKey c.currKey) ≠ c.direction)
          ∨ (IndexCursor.sgn (ops.woCompare c.endKey c.currKey) = 0
            ∧ c.endKeyInclusive = false)) →
        IndexCursor.checkEnd ops c = Except.ok c)
      ∧ (∃ c1, IndexCursor.checkEnd ops c = Except.ok c1
        ∧ (c1.currKey.isEmpty = true ↔
          ((IndexCursor.sgn (ops.woCompare c.endKey c.currKey) ≠ 0
              ∧ IndexCursor.sgn (ops.woCompare c.endKey c.currKey) ≠ c.direction)
            ∨ (IndexCursor.sgn (ops.woCompare c.endKey c.currKey) = 0
              ∧ c.endKeyInclusive = false)))))
    ∧ (c.currKey.isEmpty = true → IndexCursor.checkEnd ops c = Except.ok c)
    ∧ (c.endKey.isEmpty = true → IndexCursor.checkEnd ops c = Except.ok c)
    ∧ (c.direction = 1 →
        (((IndexCursor.sgn (ops.woCompare c.endKey c.currKey) ≠ 0
            ∧ IndexCursor.sgn (ops.woCompare c.endKey c.currKey) ≠ c.direction)
          ∨ (IndexCursor.sgn (ops.woCompare c.endKey c.currKey) = 0
            ∧ c.endKeyInclusive = false))
        ↔ (ops.woCompare c.endKey c.currKey < 0
          ∨ (ops.woCompare c.endKey c.currKey = 0 ∧ c.endKeyInclusive = false))))
    ∧ (c.direction = -1 →
        (((IndexCursor.sgn (ops.woCompare c.endKey c.currKey) ≠ 0
            ∧ IndexCursor.sgn (ops.woCompare c.endKey c.currKey) ≠ c.direction)
          ∨ (IndexCursor.sgn (ops.woCompare c.endKey c.currKey) = 0
            ∧ c.endKeyInclusive = false))
        ↔ (0 < ops.woCompare c.endKey c.currKey
          ∨ (ops.woCompare c.endKey c.currKey = 0 ∧ c.endKeyInclusive = false)))) := by
  have hsgn : ∀ d : Int, (d = 1 ∨ d = -1) →
      (((IndexCursor.sgn (ops.woCompare c.endKey c.currKey) ≠ 0
            ∧ IndexCursor.sgn (ops.woCompare c.endKey c.currKey) ≠ d)
          ∨ (IndexCursor.sgn (ops.woCompare c.endKey c.currKey) = 0
            ∧ c.endKeyInclusive = false))
        ↔ ((if d = 1 then ops.woCompare c.endKey c.currKey < 0
              else 0 < ops.woCompare c.endKey c.currKey)
          ∨ (ops.woCompare c.endKey c.currKey = 0 ∧ c.endKeyInclusive = false))) := by
    intro d hd
    rcases lt_trichotomy (ops.woCompare c.endKey c.currKey) 0 with hc | hc | hc
    · rw [IndexCursor.sgn_neg hc]
      rcases hd with rfl | rfl <;> simp <;> omega
    · rw [hc, IndexCursor.sgn_zero]
      rcases hd with rfl | rfl <;> simp
    · rw [IndexCursor.sgn_pos hc]
      rcases hd with rfl | rfl <;> simp <;> omega
  refine ⟨?_, ?_, ?_, ?_, ?_⟩
  · intro hk he hd
    have hyes : ((IndexCursor.sgn (ops.woCompare c.endKey c.currKey) ≠ 0
            ∧ IndexCursor.sgn (ops.woCompare c.endKey c.currKey) ≠ c.direction)
          ∨ (IndexCursor.sgn (ops.woCompare c.endKey c.currKey) = 0
            ∧ c.endKeyInclusive = false)) →
        IndexCursor.checkEnd ops c = Except.ok c.clearKey := by
      intro hcond
      have hcond2 : (IndexCursor.sgn (ops.woCompare c.endKey c.currKey) ≠ 0
            ∧ IndexCursor.sgn (ops.woCompare c.endKey c.currKey) ≠ c.direction)
          ∨ (IndexCursor.sgn (ops.woCompare c.endKey c.currKey) = 0
            ∧ (!c.endKeyInclusive) = true) := by
        simpa using hcond
      simp only [IndexCursor.checkEnd, hk, he, hd, verify, Bool.false_eq_true, if_false,
        Bool.not_false, if_true, bind, Except.bind, pure, Except.pure, hcond2]
      rfl
    have hno : ¬ ((IndexCursor.sgn (ops.woCompare c.endKey c.currKey) ≠ 0
            ∧ IndexCursor.sgn (ops.woCompare c.endKey c.currKey) ≠ c.direction)
          ∨ (IndexCursor.sgn (ops.woCompare c.endKey c.currKey) = 0
            ∧ c.endKeyInclusive = false)) →
        IndexCursor.checkEnd ops c = Except.ok c := by
      intro hcond
      have hcond2 : ¬ ((IndexCursor.sgn (ops.woCompare c.endKey c.currKey) ≠ 0
            ∧ IndexCursor.sgn (ops.woCompare c.endKey c.currKey) ≠ c.direction)
          ∨ (IndexCursor.sgn (ops.woCompare c.endKey c.currKey) = 0
            ∧ (!c.endKeyInclusive) = true)) := by
        simpa using hcond
      simp only [IndexCursor.checkEnd, hk, he, hd, verify, Bool.false_eq_true, if_false,
        Bool.not_false, if_true, bind, Except.bind, pure, Except.pure, hcond2]
    refine ⟨hyes, hno, ?_⟩
    by_cases hcond : (IndexCursor.sgn (ops.woCompare c.endKey c.currKey) ≠ 0
            ∧ IndexCursor.sgn (ops.woCompare c.endKey c.currKey) ≠ c.direction)
          ∨ (IndexCursor.sgn (ops.woCompare c.endKey c.currKey) = 0
            ∧ c.endKeyInclusive = false)
    · refine ⟨c.clearKey, hyes hcond, ?_⟩
      simp only [IndexCursor.clearKey, BSONObj.empty_isEmpty, true_iff]
      exact hcond
    · refine ⟨c, hno hcond, ?_⟩
      simp only [hk, Bool.false_eq_true, false_iff]
      exact hcond
  · intro hk
    simp [IndexCursor.checkEnd, hk, pure, Except.pure]
  · intro he
    by_cases hk : c.currKey.isEmpty = true
    · simp [IndexCursor.checkEnd, hk, pure, Except.pure]
    · simp [IndexCursor.checkEnd, hk, he, pure, Except.pure]
  · intro hd
    rw [hd]
    simpa using hsgn 1 (Or.inl rfl)
  · intro hd
    rw [hd]
    simpa using hsgn (-1) (Or.inr rfl)

/-- C13 at the entry `{a: 2, _id: 2}` of a forward scan whose end key is `{a: 2}`:
with an exclusive end the current key is cleared, with an inclusive end the cursor
is left as it is. -/
theorem checkEnd_clears_iff_witness :
    ((Example.endCursor false).currKey.isEmpty = false
      ∧ (Example.endCursor false).endKey.isEmpty = false
      ∧ (Example.endCursor false).d_idx.isSome = true)
    ∧ IndexCursor.checkEnd Example.ops (Example.endCursor false)
        = Except.ok (Example.endCursor false).clearKey
    ∧ IndexCursor.checkEnd Example.ops (Example.endCursor true)
        = Except.ok (Example.endCursor true) :=
  ⟨⟨by decide, by decide, by decide⟩,
   ((checkEnd_clears_iff Example.ops (Example.endCursor false)).1
      (by decide) (by decide) (by decide)).1 (by decide),
   ((checkEnd_clears_iff Example.ops (Example.endCursor true)).1
      (by decide) (by decide) (by decide)).2.1 (by decide)⟩

end Mongo
